import Mathlib

/-!
Verification of growi-plugin-frontmatter-viewer.

Shallow embedding of the plugin's source (src/parseFrontmatter.ts,
src/client-entry.tsx) in Lean 4, together with theorems settling the
specification claims about the YAML-dialect parser, the document fetcher
and the navigation/panel state machine.
-/

/-- A parsed YAML value, mirroring the `unknown` values produced by
`parseSimpleYaml`: strings, numbers, booleans, null, lists of strings
(both inline and block lists carry plain strings, no coercion), and
nested mappings (ordered association lists, as JS object insertion
order). -/
inductive Value where
  | str (s : String)
  | num (q : ℚ)
  | bool (b : Bool)
  | null
  | list (items : List String)
  | map (m : List (String × Value))

/-- JS `String.prototype.trim`: drop whitespace from both ends. -/
def jsTrim (s : String) : String :=
  String.mk (((s.data.dropWhile Char.isWhitespace).reverse.dropWhile Char.isWhitespace).reverse)

/-- JS `String.prototype.startsWith`. -/
def jsStartsWith (s pat : String) : Bool :=
  pat.data.isPrefixOf s.data

/-- JS `String.prototype.endsWith`. -/
def jsEndsWith (s pat : String) : Bool :=
  pat.data.reverse.isPrefixOf s.data.reverse

/-- JS `String.prototype.split` with a single-character separator. -/
def splitOnChar (sep : Char) : List Char → List (List Char)
  | [] => [[]]
  | c :: rest =>
    if c = sep then [] :: splitOnChar sep rest
    else match splitOnChar sep rest with
      | g :: gs => (c :: g) :: gs
      | [] => [[c]]

/-- `s.split(sep)` producing strings. -/
def splitStr (sep : Char) (s : String) : List String :=
  (splitOnChar sep s.data).map String.mk

/-- `getIndent` from parseFrontmatter.ts: `line.length - line.trimStart().length`,
i.e. the number of leading whitespace characters. -/
def getIndent (s : String) : Nat :=
  (s.data.takeWhile Char.isWhitespace).length

/-- A single or double quote character (the character class `['"]`). -/
def isQuoteChar (c : Char) : Bool := c = '\'' || c = '"'

/-- The regex replacement `.replace(/^['"]|['"]$/g, '')`: remove a leading
quote if present, and a trailing quote if (still) present. -/
def stripQuotes (s : String) : String :=
  let cs := s.data
  let cs1 := match cs with
    | c :: rest => if isQuoteChar c then rest else c :: rest
    | [] => []
  let cs2 := match cs1.getLast? with
    | some c => if isQuoteChar c then cs1.dropLast else cs1
    | none => cs1
  String.mk cs2

/-- `trimmed.indexOf(':')` followed by the two slices: split a character
list at the first colon, returning the parts before and after it, or
`none` when no colon occurs. -/
def breakAtColon : List Char → Option (List Char × List Char)
  | [] => none
  | c :: rest =>
    if c = ':' then some ([], rest)
    else (breakAtColon rest).map (fun p => (c :: p.1, p.2))

/-- Decimal digits read as a natural number. -/
def natOfDigits (cs : List Char) : Nat :=
  cs.foldl (fun n c => 10 * n + (c.toNat - 48)) 0

/-- The numeric-token test `/^-?\d+(\.\d+)?$/`. -/
def isNumTok (s : String) : Bool :=
  let cs := match s.data with
    | '-' :: rest => rest
    | cs => cs
  let ip := cs.takeWhile Char.isDigit
  let rest := cs.dropWhile Char.isDigit
  decide (ip ≠ []) &&
    (match rest with
      | [] => true
      | '.' :: fs => decide (fs ≠ []) && fs.all Char.isDigit
      | _ => false)

/-- The exact rational value of a token matching `/^-?\d+(\.\d+)?$/`
(what JS `Number` returns on such a token, up to float rounding). -/
def numVal (s : String) : ℚ :=
  let (neg, cs) := match s.data with
    | '-' :: rest => (true, rest)
    | cs => (false, cs)
  let ip := cs.takeWhile Char.isDigit
  let rest := cs.dropWhile Char.isDigit
  let q : ℚ := match rest with
    | '.' :: fs => (natOfDigits ip : ℚ) + (natOfDigits fs : ℚ) / ((10 : ℚ) ^ fs.length)
    | _ => (natOfDigits ip : ℚ)
  if neg then -q else q

/-- `parseScalar` from parseFrontmatter.ts: literal booleans, literal
null, numeric tokens, quote unwrapping via
`startsWith`/`endsWith` + `slice(1, -1)`, otherwise the string itself. -/
def parseScalar (v : String) : Value :=
  if v = "true" then .bool true
  else if v = "false" then .bool false
  else if v = "null" ∨ v = "~" then .null
  else if isNumTok v then .num (numVal v)
  else if (jsStartsWith v "\"" && jsEndsWith v "\"") || (jsStartsWith v "'" && jsEndsWith v "'") then
    .str (String.mk v.data.tail.dropLast)
  else .str v

/-- JS object assignment `result[key] = v` on a string-keyed object:
if the key is present, its value is replaced in place (keeping insertion
position); otherwise the pair is appended. -/
def insertKV (m : List (String × Value)) (k : String) (v : Value) : List (String × Value) :=
  if m.any (fun p => p.1 == k) then m.map (fun p => if p.1 = k then (k, v) else p)
  else m ++ [(k, v)]

/-- The blank-line skip `while (i < lines.length && !lines[i].trim()) i++`,
fuel-indexed; fuel `l.length - i` always suffices (proved below). -/
def skipBlanksF : Nat → List String → Nat → Nat
  | 0, _, i => i
  | f + 1, l, i =>
    if i < l.length ∧ jsTrim (l.getD i "") = "" then skipBlanksF f l (i + 1) else i

/-- The blank-line skip with adequate fuel. -/
def skipBlanks (l : List String) (i : Nat) : Nat :=
  skipBlanksF l.length l i

/-- The block-list loop of `parseYamlBlock`, fuel-indexed: collect `- `
items at indentation ≥ `childIndent` (skipping blank lines), stopping at
a shallower line or a non-item line; returns the items and the index of
the first unconsumed line. -/
def consumeListF : Nat → List String → Nat → Nat → List String × Nat
  | 0, _, _, i => ([], i)
  | f + 1, l, childIndent, i =>
    if i < l.length then
      let line := l.getD i ""
      let lt := jsTrim line
      if lt = "" then consumeListF f l childIndent (i + 1)
      else if getIndent line < childIndent then ([], i)
      else if jsStartsWith lt "- " then
        let r := consumeListF f l childIndent (i + 1)
        (stripQuotes (jsTrim (String.mk (lt.data.drop 2))) :: r.1, r.2)
      else ([], i)
    else ([], i)

/-- The block-list loop with adequate fuel. -/
def consumeList (l : List String) (childIndent : Nat) (i : Nat) : List String × Nat :=
  consumeListF l.length l childIndent i

/-- One inline-list parse: `rawValue.slice(1, -1).split(',')` with each
item trimmed and quote-stripped. -/
def inlineItems (rawValue : String) : List String :=
  (splitOnChar ',' rawValue.data.tail.dropLast).map
    (fun cs => stripQuotes (jsTrim (String.mk cs)))

/-- `parseYamlBlock` from parseFrontmatter.ts, fuel-indexed.  The loop
state `(i, acc)` mirrors the mutable cursor and the `result` object;
each loop iteration or recursive call consumes one unit of fuel, and
(as proved below) fuel `lines.length - i` always suffices.  Returns the
accumulated mapping and the index of the first line not belonging to
the block. -/
def parseYamlBlockF : Nat → List String → Nat → Nat → List (String × Value) →
    (List (String × Value)) × Nat
  | 0, _, i, _, acc => (acc, i)
  | f + 1, l, i, base, acc =>
    if i < l.length then
      let line := l.getD i ""
      let trimmed := jsTrim line
      if trimmed = "" ∨ jsStartsWith trimmed "#" = true then
        parseYamlBlockF f l (i + 1) base acc
      else if getIndent line < base then (acc, i)
      else if base < getIndent line then
        parseYamlBlockF f l (i + 1) base acc
      else
        match breakAtColon trimmed.data with
        | none => parseYamlBlockF f l (i + 1) base acc
        | some (pre, post) =>
          let key := jsTrim (String.mk pre)
          let rawValue := jsTrim (String.mk post)
          if rawValue ≠ "" then
            let v :=
              if jsStartsWith rawValue "[" && jsEndsWith rawValue "]" then
                Value.list (inlineItems rawValue)
              else parseScalar rawValue
            parseYamlBlockF f l (i + 1) base (insertKV acc key v)
          else
            let j := skipBlanks l (i + 1)
            if l.length ≤ j then
              parseYamlBlockF f l j base (insertKV acc key .null)
            else
              let childIndent := getIndent (l.getD j "")
              if childIndent ≤ base then
                parseYamlBlockF f l j base (insertKV acc key .null)
              else if jsStartsWith (jsTrim (l.getD j "")) "- " then
                let r := consumeList l childIndent j
                parseYamlBlockF f l r.2 base (insertKV acc key (.list r.1))
              else
                let n := parseYamlBlockF f l j childIndent []
                parseYamlBlockF f l n.2 base (insertKV acc key (.map n.1))
    else (acc, i)

/-- `parseYamlBlock(lines, startIdx, baseIndent)` with adequate fuel. -/
def parseYamlBlock (l : List String) (i base : Nat) : (List (String × Value)) × Nat :=
  parseYamlBlockF l.length l i base []

/-- Parse a whole line sequence as a top-level block (what
`parseSimpleYaml` does after splitting on newlines). -/
def parseLines (l : List String) : List (String × Value) :=
  (parseYamlBlock l 0 0).1

/-- `parseSimpleYaml` from parseFrontmatter.ts. -/
def parseSimpleYaml (yaml : String) : List (String × Value) :=
  parseLines (splitStr '\n' yaml)

/-- Scalar coercion exactly as the specification words it (claim C3):
literal `true`/`false`, literal `null`/`~`, numeric token, then a value
*fully wrapped in one matching pair* of quotes — a pair being two
characters, so the value must have length at least two with the same
quote character first and last — and otherwise the raw string. -/
def coerceScalarSpec (v : String) : Value :=
  if v = "true" then .bool true
  else if v = "false" then .bool false
  else if v = "null" ∨ v = "~" then .null
  else if isNumTok v then .num (numVal v)
  else if 2 ≤ v.data.length ∧
      ((v.data.head? = some '"' ∧ v.data.getLast? = some '"') ∨
       (v.data.head? = some '\'' ∧ v.data.getLast? = some '\'')) then
    .str (String.mk v.data.tail.dropLast)
  else .str v

/-- Scalar coercion as amended (C3 corrected): identical to the
specification's rules except that the quote rule fires whenever the first
and last characters are the same quote character, *including* the
one-character value that is a single quote, which unwraps to the empty
string. -/
def coerceScalarAmended (v : String) : Value :=
  if v = "true" then .bool true
  else if v = "false" then .bool false
  else if v = "null" ∨ v = "~" then .null
  else if isNumTok v then .num (numVal v)
  else if v.data.length = 1 ∧ (v = "\"" ∨ v = "'") then .str ""
  else if 2 ≤ v.data.length ∧
      ((v.data.head? = some '"' ∧ v.data.getLast? = some '"') ∨
       (v.data.head? = some '\'' ∧ v.data.getLast? = some '\'')) then
    .str (String.mk v.data.tail.dropLast)
  else .str v

theorem singleton_isPrefixOf_iff_head (c : Char) (cs : List Char) :
    [c].isPrefixOf cs = true ↔ cs.head? = some c := by
  cases cs with
  | nil => simp [List.isPrefixOf]
  | cons a t =>
    simp [List.isPrefixOf]
    exact eq_comm

theorem jsStartsWith_single (v : String) (c : Char) :
    jsStartsWith v (String.mk [c]) = true ↔ v.data.head? = some c := by
  simpa [jsStartsWith] using singleton_isPrefixOf_iff_head c v.data

theorem jsEndsWith_single (v : String) (c : Char) :
    jsEndsWith v (String.mk [c]) = true ↔ v.data.getLast? = some c := by
  simpa [jsEndsWith, List.head?_reverse] using
    singleton_isPrefixOf_iff_head c v.data.reverse

theorem quote_cond_iff (v : String) (hv : v ≠ "") :
    ((jsStartsWith v "\"" && jsEndsWith v "\"") || (jsStartsWith v "'" && jsEndsWith v "'")) = true ↔
    ((v.data.length = 1 ∧ (v = "\"" ∨ v = "'")) ∨
     (2 ≤ v.data.length ∧ ((v.data.head? = some '"' ∧ v.data.getLast? = some '"') ∨
        (v.data.head? = some '\'' ∧ v.data.getLast? = some '\'')))) := by
  rw [Bool.or_eq_true, Bool.and_eq_true, Bool.and_eq_true,
      show ("\"" : String) = String.mk ['"'] from rfl, show ("'" : String) = String.mk ['\''] from rfl,
      jsStartsWith_single, jsStartsWith_single, jsEndsWith_single, jsEndsWith_single]
  obtain ⟨cs⟩ := v
  have hcs : cs ≠ [] := fun h => hv (by rw [h])
  rcases cs with _ | ⟨a, _ | ⟨b, t⟩⟩
  · exact absurd rfl hcs
  · constructor
    · rintro (⟨h1, _⟩ | ⟨h1, _⟩) <;>
        · simp only [List.head?_cons, Option.some.injEq] at h1
          subst h1
          exact Or.inl ⟨rfl, by simp⟩
    · rintro (⟨_, h⟩ | ⟨h2, _⟩)
      · rcases h with h | h <;>
          · have hd := congrArg String.data h
            simp only [List.cons.injEq, and_true] at hd
            subst hd
            simp
      · simp at h2
  · have h1 : ¬((a :: b :: t).length = 1) := by simp
    have h2 : 2 ≤ (a :: b :: t).length := by simp
    constructor
    · intro h
      exact Or.inr ⟨h2, h⟩
    · rintro (⟨h, _⟩ | ⟨_, h⟩)
      · exact absurd h h1
      · exact h

/-- C1: the Scenario-A block text parses to exactly
`{title: "Hello", tags: ["a","b"], meta: {draft: true}}`, with `tags` a
list of the two strings and `meta` a nested mapping holding the boolean. -/
theorem scenarioA_parse_exact :
    parseSimpleYaml "title: Hello\ntags: [a, b]\nmeta:\n  draft: true" =
      [("title", Value.str "Hello"), ("tags", Value.list ["a", "b"]),
       ("meta", Value.map [("draft", Value.bool true)])] := by rfl

/-- C3 counterexample: on the one-character value `"` (a single double
quote), the code's quote check (`startsWith` and `endsWith` both see the
same lone character) fires and `slice(1, -1)` yields the empty string,
while the specification's rules — which require a *matching pair* of
quotes — leave the raw string untouched.  So the claim, as stated for
every non-empty raw scalar value, is false at this input. -/
theorem scalar_coercion_counterexample :
    ("\"" : String) ≠ "" ∧
    parseScalar "\"" = Value.str "" ∧
    coerceScalarSpec "\"" = Value.str "\"" ∧
    parseScalar "\"" ≠ coerceScalarSpec "\"" := by
  refine ⟨by decide, rfl, rfl, fun h => ?_⟩
  rw [show parseScalar "\"" = Value.str "" from rfl,
      show coerceScalarSpec "\"" = Value.str "\"" from rfl] at h
  injection h with h'
  exact (by decide : ("" : String) ≠ "\"") h'

/-- C3 (amended): for every non-empty raw scalar value, `parseScalar`
applies the claimed coercion rules in order, with the quote rule amended
to fire whenever the first and last characters are the same quote
character — including the one-character value consisting of a single
quote, which becomes the empty string. -/
theorem parseScalar_eq_amended (v : String) (hv : v ≠ "") :
    parseScalar v = coerceScalarAmended v := by
  have hq := quote_cond_iff v hv
  unfold parseScalar coerceScalarAmended
  by_cases h1 : v = "true"
  · rw [if_pos h1, if_pos h1]
  rw [if_neg h1, if_neg h1]
  by_cases h2 : v = "false"
  · rw [if_pos h2, if_pos h2]
  rw [if_neg h2, if_neg h2]
  by_cases h3 : v = "null" ∨ v = "~"
  · rw [if_pos h3, if_pos h3]
  rw [if_neg h3, if_neg h3]
  by_cases h4 : isNumTok v = true
  · rw [if_pos h4, if_pos h4]
  rw [if_neg h4, if_neg h4]
  by_cases h5 : v.data.length = 1 ∧ (v = "\"" ∨ v = "'")
  · rw [if_pos h5, if_pos (hq.mpr (Or.inl h5))]
    obtain ⟨hl, _⟩ := h5
    obtain ⟨c, hc⟩ := List.length_eq_one.mp hl
    rw [hc]
    rfl
  rw [if_neg h5]
  by_cases h6 : 2 ≤ v.data.length ∧
      ((v.data.head? = some '"' ∧ v.data.getLast? = some '"') ∨
       (v.data.head? = some '\'' ∧ v.data.getLast? = some '\''))
  · rw [if_pos h6, if_pos (hq.mpr (Or.inr h6))]
  · rw [if_neg h6, if_neg (fun hqb => (hq.mp hqb).elim h5 h6)]

/-- Witness for the amended C3 theorem at the concrete input `'x'`. -/
theorem parseScalar_eq_amended_witness :
    ("'x'" : String) ≠ "" ∧ parseScalar "'x'" = coerceScalarAmended "'x'" :=
  ⟨by decide, parseScalar_eq_amended "'x'" (by decide)⟩

/-- A case-insensitive hexadecimal digit, the character class `[0-9a-f]`
under the `i` flag. -/
def isHexDigitCI (c : Char) : Bool :=
  c.isDigit || (decide ('a' ≤ c) && decide (c ≤ 'f')) || (decide ('A' ≤ c) && decide (c ≤ 'F'))

/-- `PAGE_ID_PATTERN` from client-entry.tsx: the regex
`/^\/[0-9a-f]{24}$/i` as a test on a whole string — a leading slash
followed by exactly 24 case-insensitive hex characters. -/
def PAGE_ID_PATTERN (s : String) : Bool :=
  match s.data with
  | c :: rest => c == '/' && rest.length == 24 && rest.all isHexDigitCI
  | [] => false

/-- An address as the spec's data model has it: the path component and
the query string, as produced by `location.pathname` / `location.search`. -/
structure Address where
  path : String
  query : String

/-- The eligibility test the client code applies: `PAGE_ID_PATTERN` is
tested against `location.pathname` alone — the query string plays no
part. -/
def addressEligible (a : Address) : Bool :=
  PAGE_ID_PATTERN a.path

/-- C6: the canonical-identifier test accepts a string iff it is exactly
a slash followed by 24 case-insensitive hex characters; the spec's
positive and negative examples behave as claimed (23- and 25-character
hex strings are rejected); and for an address carrying a query string
the test applies to the path component alone, so a canonical path still
matches. -/
theorem canonical_shape_matching :
    (∀ s : String, PAGE_ID_PATTERN s = true ↔
       ∃ t : List Char, s.data = '/' :: t ∧ t.length = 24 ∧ ∀ c ∈ t, isHexDigitCI c = true) ∧
    PAGE_ID_PATTERN "/6999390af17c96c558f7d57e" = true ∧
    PAGE_ID_PATTERN "/settings" = false ∧
    PAGE_ID_PATTERN "/abc" = false ∧
    PAGE_ID_PATTERN "/6999390af17c96c558f7d5" = false ∧
    PAGE_ID_PATTERN "/6999390af17c96c558f7d57ea" = false ∧
    addressEligible ⟨"/6999390af17c96c558f7d57e", "?revisionId=68d1f0a2b4c6e8a0d2f4b6c8"⟩ = true := by
  refine ⟨fun s => ?_, by decide, by decide, by decide, by decide, by decide, by decide⟩
  obtain ⟨cs⟩ := s
  rcases cs with _ | ⟨c, t⟩
  · simp [PAGE_ID_PATTERN]
  · simp only [PAGE_ID_PATTERN, Bool.and_eq_true, beq_iff_eq, List.all_eq_true,
      List.cons.injEq]
    constructor
    · rintro ⟨⟨hc, hl⟩, ha⟩
      exact ⟨t, ⟨hc, rfl⟩, hl, ha⟩
    · rintro ⟨t', ⟨hc, ht⟩, hl, ha⟩
      subst ht
      exact ⟨⟨hc, hl⟩, ha⟩

theorem pYB_oob (f : Nat) (l : List String) (i base : Nat) (acc : List (String × Value))
    (h0 : ¬ i < l.length) :
    parseYamlBlockF (f + 1) l i base acc = (acc, i) := by
  simp only [parseYamlBlockF, if_neg h0]

theorem pYB_skip (f : Nat) (l : List String) (i base : Nat) (acc : List (String × Value))
    (h0 : i < l.length)
    (h1 : jsTrim (l.getD i "") = "" ∨ jsStartsWith (jsTrim (l.getD i "")) "#" = true) :
    parseYamlBlockF (f + 1) l i base acc = parseYamlBlockF f l (i + 1) base acc := by
  simp only [parseYamlBlockF, if_pos h0, if_pos h1]

theorem pYB_dedent (f : Nat) (l : List String) (i base : Nat) (acc : List (String × Value))
    (h0 : i < l.length)
    (h1 : ¬(jsTrim (l.getD i "") = "" ∨ jsStartsWith (jsTrim (l.getD i "")) "#" = true))
    (h2 : getIndent (l.getD i "") < base) :
    parseYamlBlockF (f + 1) l i base acc = (acc, i) := by
  simp only [parseYamlBlockF, if_pos h0, if_neg h1, if_pos h2]

theorem pYB_deep (f : Nat) (l : List String) (i base : Nat) (acc : List (String × Value))
    (h0 : i < l.length)
    (h1 : ¬(jsTrim (l.getD i "") = "" ∨ jsStartsWith (jsTrim (l.getD i "")) "#" = true))
    (h2 : ¬ getIndent (l.getD i "") < base)
    (h3 : base < getIndent (l.getD i "")) :
    parseYamlBlockF (f + 1) l i base acc = parseYamlBlockF f l (i + 1) base acc := by
  simp only [parseYamlBlockF, if_pos h0, if_neg h1, if_neg h2, if_pos h3]

theorem pYB_nocolon (f : Nat) (l : List String) (i base : Nat) (acc : List (String × Value))
    (h0 : i < l.length)
    (h1 : ¬(jsTrim (l.getD i "") = "" ∨ jsStartsWith (jsTrim (l.getD i "")) "#" = true))
    (h2 : ¬ getIndent (l.getD i "") < base)
    (h3 : ¬ base < getIndent (l.getD i ""))
    (hbc : breakAtColon (jsTrim (l.getD i "")).data = none) :
    parseYamlBlockF (f + 1) l i base acc = parseYamlBlockF f l (i + 1) base acc := by
  simp only [parseYamlBlockF, if_pos h0, if_neg h1, if_neg h2, if_neg h3, hbc]

theorem pYB_value (f : Nat) (l : List String) (i base : Nat) (acc : List (String × Value))
    (pre post : List Char)
    (h0 : i < l.length)
    (h1 : ¬(jsTrim (l.getD i "") = "" ∨ jsStartsWith (jsTrim (l.getD i "")) "#" = true))
    (h2 : ¬ getIndent (l.getD i "") < base)
    (h3 : ¬ base < getIndent (l.getD i ""))
    (hbc : breakAtColon (jsTrim (l.getD i "")).data = some (pre, post))
    (hrv : jsTrim (String.mk post) ≠ "") :
    parseYamlBlockF (f + 1) l i base acc =
      parseYamlBlockF f l (i + 1) base (insertKV acc (jsTrim (String.mk pre))
        (if jsStartsWith (jsTrim (String.mk post)) "[" && jsEndsWith (jsTrim (String.mk post)) "]" then
           Value.list (inlineItems (jsTrim (String.mk post)))
         else parseScalar (jsTrim (String.mk post)))) := by
  simp only [parseYamlBlockF, if_pos h0, if_neg h1, if_neg h2, if_neg h3, hbc, if_pos hrv]

theorem pYB_null_oob (f : Nat) (l : List String) (i base : Nat) (acc : List (String × Value))
    (pre post : List Char)
    (h0 : i < l.length)
    (h1 : ¬(jsTrim (l.getD i "") = "" ∨ jsStartsWith (jsTrim (l.getD i "")) "#" = true))
    (h2 : ¬ getIndent (l.getD i "") < base)
    (h3 : ¬ base < getIndent (l.getD i ""))
    (hbc : breakAtColon (jsTrim (l.getD i "")).data = some (pre, post))
    (hrv : ¬ jsTrim (String.mk post) ≠ "")
    (hj : l.length ≤ skipBlanks l (i + 1)) :
    parseYamlBlockF (f + 1) l i base acc =
      parseYamlBlockF f l (skipBlanks l (i + 1)) base
        (insertKV acc (jsTrim (String.mk pre)) Value.null) := by
  simp only [parseYamlBlockF, if_pos h0, if_neg h1, if_neg h2, if_neg h3, hbc, if_neg hrv,
    if_pos hj]

theorem pYB_null_shallow (f : Nat) (l : List String) (i base : Nat) (acc : List (String × Value))
    (pre post : List Char)
    (h0 : i < l.length)
    (h1 : ¬(jsTrim (l.getD i "") = "" ∨ jsStartsWith (jsTrim (l.getD i "")) "#" = true))
    (h2 : ¬ getIndent (l.getD i "") < base)
    (h3 : ¬ base < getIndent (l.getD i ""))
    (hbc : breakAtColon (jsTrim (l.getD i "")).data = some (pre, post))
    (hrv : ¬ jsTrim (String.mk post) ≠ "")
    (hj : ¬ l.length ≤ skipBlanks l (i + 1))
    (hci : getIndent (l.getD (skipBlanks l (i + 1)) "") ≤ base) :
    parseYamlBlockF (f + 1) l i base acc =
      parseYamlBlockF f l (skipBlanks l (i + 1)) base
        (insertKV acc (jsTrim (String.mk pre)) Value.null) := by
  simp only [parseYamlBlockF, if_pos h0, if_neg h1, if_neg h2, if_neg h3, hbc, if_neg hrv,
    if_neg hj, if_pos hci]

theorem pYB_blocklist (f : Nat) (l : List String) (i base : Nat) (acc : List (String × Value))
    (pre post : List Char)
    (h0 : i < l.length)
    (h1 : ¬(jsTrim (l.getD i "") = "" ∨ jsStartsWith (jsTrim (l.getD i "")) "#" = true))
    (h2 : ¬ getIndent (l.getD i "") < base)
    (h3 : ¬ base < getIndent (l.getD i ""))
    (hbc : breakAtColon (jsTrim (l.getD i "")).data = some (pre, post))
    (hrv : ¬ jsTrim (String.mk post) ≠ "")
    (hj : ¬ l.length ≤ skipBlanks l (i + 1))
    (hci : ¬ getIndent (l.getD (skipBlanks l (i + 1)) "") ≤ base)
    (hds : jsStartsWith (jsTrim (l.getD (skipBlanks l (i + 1)) "")) "- " = true) :
    parseYamlBlockF (f + 1) l i base acc =
      parseYamlBlockF f l
        (consumeList l (getIndent (l.getD (skipBlanks l (i + 1)) "")) (skipBlanks l (i + 1))).2 base
        (insertKV acc (jsTrim (String.mk pre))
          (Value.list (consumeList l (getIndent (l.getD (skipBlanks l (i + 1)) ""))
            (skipBlanks l (i + 1))).1)) := by
  simp only [parseYamlBlockF, if_pos h0, if_neg h1, if_neg h2, if_neg h3, hbc, if_neg hrv,
    if_neg hj, if_neg hci, if_pos hds]

theorem pYB_nested (f : Nat) (l : List String) (i base : Nat) (acc : List (String × Value))
    (pre post : List Char)
    (h0 : i < l.length)
    (h1 : ¬(jsTrim (l.getD i "") = "" ∨ jsStartsWith (jsTrim (l.getD i "")) "#" = true))
    (h2 : ¬ getIndent (l.getD i "") < base)
    (h3 : ¬ base < getIndent (l.getD i ""))
    (hbc : breakAtColon (jsTrim (l.getD i "")).data = some (pre, post))
    (hrv : ¬ jsTrim (String.mk post) ≠ "")
    (hj : ¬ l.length ≤ skipBlanks l (i + 1))
    (hci : ¬ getIndent (l.getD (skipBlanks l (i + 1)) "") ≤ base)
    (hds : ¬ jsStartsWith (jsTrim (l.getD (skipBlanks l (i + 1)) "")) "- " = true) :
    parseYamlBlockF (f + 1) l i base acc =
      parseYamlBlockF f l
        (parseYamlBlockF f l (skipBlanks l (i + 1))
          (getIndent (l.getD (skipBlanks l (i + 1)) "")) []).2 base
        (insertKV acc (jsTrim (String.mk pre))
          (Value.map (parseYamlBlockF f l (skipBlanks l (i + 1))
            (getIndent (l.getD (skipBlanks l (i + 1)) "")) []).1)) := by
  simp only [parseYamlBlockF, if_pos h0, if_neg h1, if_neg h2, if_neg h3, hbc, if_neg hrv,
    if_neg hj, if_neg hci, if_neg hds]

theorem skipBlanksF_ge (f : Nat) (l : List String) : ∀ i, i ≤ skipBlanksF f l i := by
  induction f with
  | zero => intro i; exact le_rfl
  | succ f ih =>
    intro i
    simp only [skipBlanksF]
    split_ifs with h
    · exact le_trans (Nat.le_succ i) (ih (i + 1))
    · exact le_rfl

theorem skipBlanks_ge (l : List String) (i : Nat) : i ≤ skipBlanks l i :=
  skipBlanksF_ge l.length l i

theorem consumeListF_ge (f : Nat) (l : List String) (ci : Nat) :
    ∀ i, i ≤ (consumeListF f l ci i).2 := by
  induction f with
  | zero => intro i; exact le_rfl
  | succ f ih =>
    intro i
    simp only [consumeListF]
    split_ifs with h0 h1 h2 h3
    · exact le_trans (Nat.le_succ i) (ih (i + 1))
    · exact le_rfl
    · exact le_trans (Nat.le_succ i) (ih (i + 1))
    · exact le_rfl
    · exact le_rfl

theorem consumeList_ge (l : List String) (ci i : Nat) : i ≤ (consumeList l ci i).2 :=
  consumeListF_ge l.length l ci i

theorem parseYamlBlockF_ge (f : Nat) (l : List String) :
    ∀ i base acc, i ≤ (parseYamlBlockF f l i base acc).2 := by
  induction f with
  | zero => intro i base acc; exact le_rfl
  | succ f ih =>
    intro i base acc
    by_cases h0 : i < l.length
    · by_cases h1 : jsTrim (l.getD i "") = "" ∨ jsStartsWith (jsTrim (l.getD i "")) "#" = true
      · rw [pYB_skip f l i base acc h0 h1]
        exact le_trans (Nat.le_succ i) (ih (i + 1) base acc)
      · by_cases h2 : getIndent (l.getD i "") < base
        · rw [pYB_dedent f l i base acc h0 h1 h2]
        · by_cases h3 : base < getIndent (l.getD i "")
          · rw [pYB_deep f l i base acc h0 h1 h2 h3]
            exact le_trans (Nat.le_succ i) (ih (i + 1) base acc)
          · rcases hbc : breakAtColon (jsTrim (l.getD i "")).data with _ | ⟨pre, post⟩
            · rw [pYB_nocolon f l i base acc h0 h1 h2 h3 hbc]
              exact le_trans (Nat.le_succ i) (ih (i + 1) base acc)
            · by_cases hrv : jsTrim (String.mk post) ≠ ""
              · rw [pYB_value f l i base acc pre post h0 h1 h2 h3 hbc hrv]
                exact le_trans (Nat.le_succ i) (ih (i + 1) base _)
              · have hj0 : i + 1 ≤ skipBlanks l (i + 1) := skipBlanks_ge l (i + 1)
                by_cases hj : l.length ≤ skipBlanks l (i + 1)
                · rw [pYB_null_oob f l i base acc pre post h0 h1 h2 h3 hbc hrv hj]
                  exact le_trans (le_trans (Nat.le_succ i) hj0) (ih _ base _)
                · by_cases hci : getIndent (l.getD (skipBlanks l (i + 1)) "") ≤ base
                  · rw [pYB_null_shallow f l i base acc pre post h0 h1 h2 h3 hbc hrv hj hci]
                    exact le_trans (le_trans (Nat.le_succ i) hj0) (ih _ base _)
                  · by_cases hds :
                        jsStartsWith (jsTrim (l.getD (skipBlanks l (i + 1)) "")) "- " = true
                    · rw [pYB_blocklist f l i base acc pre post h0 h1 h2 h3 hbc hrv hj hci hds]
                      have hcl := consumeList_ge l
                        (getIndent (l.getD (skipBlanks l (i + 1)) "")) (skipBlanks l (i + 1))
                      exact le_trans (le_trans (le_trans (Nat.le_succ i) hj0) hcl) (ih _ base _)
                    · rw [pYB_nested f l i base acc pre post h0 h1 h2 h3 hbc hrv hj hci hds]
                      have hn := ih (skipBlanks l (i + 1))
                        (getIndent (l.getD (skipBlanks l (i + 1)) "")) []
                      exact le_trans (le_trans (le_trans (Nat.le_succ i) hj0) hn) (ih _ base _)
    · rw [pYB_oob f l i base acc h0]

theorem fuel_const {α : Type} (g : Nat → α) (t : Nat) (hstep : ∀ f, t ≤ f → g (f + 1) = g f) :
    ∀ d, g (t + d) = g t := by
  intro d
  induction d with
  | zero => rfl
  | succ d ih =>
    rw [show t + (d + 1) = (t + d) + 1 from rfl, hstep (t + d) (Nat.le_add_right t d), ih]

theorem fuel_eq {α : Type} (g : Nat → α) (t : Nat) (hstep : ∀ f, t ≤ f → g (f + 1) = g f)
    (f1 f2 : Nat) (h1 : t ≤ f1) (h2 : t ≤ f2) : g f1 = g f2 := by
  obtain ⟨d1, rfl⟩ := Nat.exists_eq_add_of_le h1
  obtain ⟨d2, rfl⟩ := Nat.exists_eq_add_of_le h2
  rw [fuel_const g t hstep d1, fuel_const g t hstep d2]

theorem sB_go (f : Nat) (l : List String) (i : Nat)
    (h : i < l.length ∧ jsTrim (l.getD i "") = "") :
    skipBlanksF (f + 1) l i = skipBlanksF f l (i + 1) := by
  simp only [skipBlanksF, if_pos h]

theorem sB_stop (f : Nat) (l : List String) (i : Nat)
    (h : ¬(i < l.length ∧ jsTrim (l.getD i "") = "")) :
    skipBlanksF (f + 1) l i = i := by
  simp only [skipBlanksF, if_neg h]

theorem skipBlanksF_step (l : List String) :
    ∀ f i, l.length - i ≤ f → skipBlanksF (f + 1) l i = skipBlanksF f l i := by
  intro f
  induction f with
  | zero =>
    intro i h
    rw [sB_stop 0 l i (by rintro ⟨hc, -⟩; omega)]
    rfl
  | succ f ih =>
    intro i h
    by_cases h0 : i < l.length ∧ jsTrim (l.getD i "") = ""
    · rw [sB_go (f + 1) l i h0, sB_go f l i h0]
      exact ih (i + 1) (by omega)
    · rw [sB_stop (f + 1) l i h0, sB_stop f l i h0]

theorem skipBlanksF_adequate (l : List String) (f i : Nat) (h : l.length - i ≤ f) :
    skipBlanksF f l i = skipBlanks l i :=
  fuel_eq (fun f => skipBlanksF f l i) (l.length - i) (fun f hf => skipBlanksF_step l f i hf)
    f l.length h (Nat.sub_le _ _)

theorem cL_oob (f : Nat) (l : List String) (ci i : Nat) (h0 : ¬ i < l.length) :
    consumeListF (f + 1) l ci i = ([], i) := by
  simp only [consumeListF, if_neg h0]

theorem cL_blank (f : Nat) (l : List String) (ci i : Nat) (h0 : i < l.length)
    (h1 : jsTrim (l.getD i "") = "") :
    consumeListF (f + 1) l ci i = consumeListF f l ci (i + 1) := by
  simp only [consumeListF, if_pos h0, if_pos h1]

theorem cL_dedent (f : Nat) (l : List String) (ci i : Nat) (h0 : i < l.length)
    (h1 : ¬ jsTrim (l.getD i "") = "") (h2 : getIndent (l.getD i "") < ci) :
    consumeListF (f + 1) l ci i = ([], i) := by
  simp only [consumeListF, if_pos h0, if_neg h1, if_pos h2]

theorem cL_item (f : Nat) (l : List String) (ci i : Nat) (h0 : i < l.length)
    (h1 : ¬ jsTrim (l.getD i "") = "") (h2 : ¬ getIndent (l.getD i "") < ci)
    (h3 : jsStartsWith (jsTrim (l.getD i "")) "- " = true) :
    consumeListF (f + 1) l ci i =
      (stripQuotes (jsTrim (String.mk ((jsTrim (l.getD i "")).data.drop 2))) ::
        (consumeListF f l ci (i + 1)).1, (consumeListF f l ci (i + 1)).2) := by
  simp only [consumeListF, if_pos h0, if_neg h1, if_neg h2, if_pos h3]

theorem cL_stop (f : Nat) (l : List String) (ci i : Nat) (h0 : i < l.length)
    (h1 : ¬ jsTrim (l.getD i "") = "") (h2 : ¬ getIndent (l.getD i "") < ci)
    (h3 : ¬ jsStartsWith (jsTrim (l.getD i "")) "- " = true) :
    consumeListF (f + 1) l ci i = ([], i) := by
  simp only [consumeListF, if_pos h0, if_neg h1, if_neg h2, if_neg h3]

theorem consumeListF_step (l : List String) (ci : Nat) :
    ∀ f i, l.length - i ≤ f → consumeListF (f + 1) l ci i = consumeListF f l ci i := by
  intro f
  induction f with
  | zero =>
    intro i h
    rw [cL_oob 0 l ci i (by omega)]
    rfl
  | succ f ih =>
    intro i h
    by_cases h0 : i < l.length
    · by_cases h1 : jsTrim (l.getD i "") = ""
      · rw [cL_blank (f + 1) l ci i h0 h1, cL_blank f l ci i h0 h1]
        exact ih (i + 1) (by omega)
      · by_cases h2 : getIndent (l.getD i "") < ci
        · rw [cL_dedent (f + 1) l ci i h0 h1 h2, cL_dedent f l ci i h0 h1 h2]
        · by_cases h3 : jsStartsWith (jsTrim (l.getD i "")) "- " = true
          · rw [cL_item (f + 1) l ci i h0 h1 h2 h3, cL_item f l ci i h0 h1 h2 h3,
              ih (i + 1) (by omega)]
          · rw [cL_stop (f + 1) l ci i h0 h1 h2 h3, cL_stop f l ci i h0 h1 h2 h3]
    · rw [cL_oob (f + 1) l ci i h0, cL_oob f l ci i h0]

theorem consumeListF_adequate (l : List String) (ci f i : Nat) (h : l.length - i ≤ f) :
    consumeListF f l ci i = consumeList l ci i :=
  fuel_eq (fun f => consumeListF f l ci i) (l.length - i)
    (fun f hf => consumeListF_step l ci f i hf) f l.length h (Nat.sub_le _ _)

theorem parseYamlBlockF_step (l : List String) :
    ∀ f i base acc, l.length - i ≤ f →
      parseYamlBlockF (f + 1) l i base acc = parseYamlBlockF f l i base acc := by
  intro f
  induction f with
  | zero =>
    intro i base acc h
    rw [pYB_oob 0 l i base acc (by omega)]
    rfl
  | succ f ih =>
    intro i base acc h
    by_cases h0 : i < l.length
    · by_cases h1 : jsTrim (l.getD i "") = "" ∨ jsStartsWith (jsTrim (l.getD i "")) "#" = true
      · rw [pYB_skip (f + 1) l i base acc h0 h1, pYB_skip f l i base acc h0 h1]
        exact ih (i + 1) base acc (by omega)
      · by_cases h2 : getIndent (l.getD i "") < base
        · rw [pYB_dedent (f + 1) l i base acc h0 h1 h2, pYB_dedent f l i base acc h0 h1 h2]
        · by_cases h3 : base < getIndent (l.getD i "")
          · rw [pYB_deep (f + 1) l i base acc h0 h1 h2 h3, pYB_deep f l i base acc h0 h1 h2 h3]
            exact ih (i + 1) base acc (by omega)
          · rcases hbc : breakAtColon (jsTrim (l.getD i "")).data with _ | ⟨pre, post⟩
            · rw [pYB_nocolon (f + 1) l i base acc h0 h1 h2 h3 hbc,
                pYB_nocolon f l i base acc h0 h1 h2 h3 hbc]
              exact ih (i + 1) base acc (by omega)
            · by_cases hrv : jsTrim (String.mk post) ≠ ""
              · rw [pYB_value (f + 1) l i base acc pre post h0 h1 h2 h3 hbc hrv,
                  pYB_value f l i base acc pre post h0 h1 h2 h3 hbc hrv]
                exact ih (i + 1) base _ (by omega)
              · have hj0 : i + 1 ≤ skipBlanks l (i + 1) := skipBlanks_ge l (i + 1)
                by_cases hj : l.length ≤ skipBlanks l (i + 1)
                · rw [pYB_null_oob (f + 1) l i base acc pre post h0 h1 h2 h3 hbc hrv hj,
                    pYB_null_oob f l i base acc pre post h0 h1 h2 h3 hbc hrv hj]
                  exact ih _ base _ (by omega)
                · by_cases hci : getIndent (l.getD (skipBlanks l (i + 1)) "") ≤ base
                  · rw [pYB_null_shallow (f + 1) l i base acc pre post h0 h1 h2 h3 hbc hrv hj hci,
                      pYB_null_shallow f l i base acc pre post h0 h1 h2 h3 hbc hrv hj hci]
                    exact ih _ base _ (by omega)
                  · by_cases hds :
                        jsStartsWith (jsTrim (l.getD (skipBlanks l (i + 1)) "")) "- " = true
                    · rw [pYB_blocklist (f + 1) l i base acc pre post h0 h1 h2 h3 hbc hrv hj hci hds,
                        pYB_blocklist f l i base acc pre post h0 h1 h2 h3 hbc hrv hj hci hds]
                      have hcl := consumeList_ge l
                        (getIndent (l.getD (skipBlanks l (i + 1)) "")) (skipBlanks l (i + 1))
                      exact ih _ base _ (by omega)
                    · rw [pYB_nested (f + 1) l i base acc pre post h0 h1 h2 h3 hbc hrv hj hci hds,
                        pYB_nested f l i base acc pre post h0 h1 h2 h3 hbc hrv hj hci hds,
                        ih (skipBlanks l (i + 1)) (getIndent (l.getD (skipBlanks l (i + 1)) "")) []
                          (by omega)]
                      have hn := parseYamlBlockF_ge f l (skipBlanks l (i + 1))
                        (getIndent (l.getD (skipBlanks l (i + 1)) "")) []
                      exact ih _ base _ (by omega)
    · rw [pYB_oob (f + 1) l i base acc h0, pYB_oob f l i base acc h0]

theorem parseYamlBlockF_adequate (l : List String) (i base : Nat) (acc : List (String × Value))
    (f : Nat) (h : l.length - i ≤ f) :
    parseYamlBlockF f l i base acc = parseYamlBlockF l.length l i base acc :=
  fuel_eq (fun f => parseYamlBlockF f l i base acc) (l.length - i)
    (fun f hf => parseYamlBlockF_step l f i base acc hf) f l.length h (Nat.sub_le _ _)

/-- C5: the parser terminates on arbitrary input in time linear in the
number of lines.  First conjunct: the returned next-index never moves
backwards (every processed line is consumed, recursive calls resume past
what they consumed).  Second conjunct: fuel `lines.length - startIdx` —
one unit per remaining line — already computes the fixed point: any
larger fuel gives the identical result, so the fuel-free loop of the
source performs at most one iteration per line and cannot loop or recurse
without consuming a line. -/
theorem parser_termination :
    (∀ f l i base acc, i ≤ (parseYamlBlockF f l i base acc).2) ∧
    (∀ f l i base acc, l.length - i ≤ f →
       parseYamlBlockF f l i base acc = parseYamlBlockF (l.length - i) l i base acc) := by
  constructor
  · exact fun f l i base acc => parseYamlBlockF_ge f l i base acc
  · intro f l i base acc h
    rw [parseYamlBlockF_adequate l i base acc f h,
      parseYamlBlockF_adequate l i base acc (l.length - i) le_rfl]

/-- Witness for C5 at concrete input: the parse of `["a: 1", "b: 2"]`
starting at line 0 advances the index, and fuel 7 computes the same
result as fuel `2 - 0 = 2`. -/
theorem parser_termination_witness :
    0 ≤ (parseYamlBlockF 7 ["a: 1", "b: 2"] 0 0 []).2 ∧
    parseYamlBlockF 7 ["a: 1", "b: 2"] 0 0 [] = parseYamlBlockF 2 ["a: 1", "b: 2"] 0 0 [] :=
  ⟨parser_termination.1 7 ["a: 1", "b: 2"] 0 0 [],
   parser_termination.2 7 ["a: 1", "b: 2"] 0 0 [] (by decide)⟩

/-- The sequence of `(key, value)` entry assignments the parser's loop
performs on one block, in order and with duplicates kept: identical to
`parseYamlBlockF` except that instead of folding `result[key] = v` into
an object it records the assignments in a list.  Nested blocks still
produce their finished mapping as the value. -/
def entriesF : Nat → List String → Nat → Nat → (List (String × Value)) × Nat
  | 0, _, i, _ => ([], i)
  | f + 1, l, i, base =>
    if i < l.length then
      let line := l.getD i ""
      let trimmed := jsTrim line
      if trimmed = "" ∨ jsStartsWith trimmed "#" = true then
        entriesF f l (i + 1) base
      else if getIndent line < base then ([], i)
      else if base < getIndent line then
        entriesF f l (i + 1) base
      else
        match breakAtColon trimmed.data with
        | none => entriesF f l (i + 1) base
        | some (pre, post) =>
          let key := jsTrim (String.mk pre)
          let rawValue := jsTrim (String.mk post)
          if rawValue ≠ "" then
            let v :=
              if jsStartsWith rawValue "[" && jsEndsWith rawValue "]" then
                Value.list (inlineItems rawValue)
              else parseScalar rawValue
            let r := entriesF f l (i + 1) base
            ((key, v) :: r.1, r.2)
          else
            let j := skipBlanks l (i + 1)
            if l.length ≤ j then
              let r := entriesF f l j base
              ((key, Value.null) :: r.1, r.2)
            else
              let childIndent := getIndent (l.getD j "")
              if childIndent ≤ base then
                let r := entriesF f l j base
                ((key, Value.null) :: r.1, r.2)
              else if jsStartsWith (jsTrim (l.getD j "")) "- " = true then
                let c := consumeList l childIndent j
                let r := entriesF f l c.2 base
                ((key, Value.list c.1) :: r.1, r.2)
              else
                let n := parseYamlBlockF f l j childIndent []
                let r := entriesF f l n.2 base
                ((key, Value.map n.1) :: r.1, r.2)
    else ([], i)

theorem eF_oob (f : Nat) (l : List String) (i base : Nat) (h0 : ¬ i < l.length) :
    entriesF (f + 1) l i base = ([], i) := by
  simp only [entriesF, if_neg h0]

theorem eF_skip (f : Nat) (l : List String) (i base : Nat)
    (h0 : i < l.length)
    (h1 : jsTrim (l.getD i "") = "" ∨ jsStartsWith (jsTrim (l.getD i "")) "#" = true) :
    entriesF (f + 1) l i base = entriesF f l (i + 1) base := by
  simp only [entriesF, if_pos h0, if_pos h1]

theorem eF_dedent (f : Nat) (l : List String) (i base : Nat)
    (h0 : i < l.length)
    (h1 : ¬(jsTrim (l.getD i "") = "" ∨ jsStartsWith (jsTrim (l.getD i "")) "#" = true))
    (h2 : getIndent (l.getD i "") < base) :
    entriesF (f + 1) l i base = ([], i) := by
  simp only [entriesF, if_pos h0, if_neg h1, if_pos h2]

theorem eF_deep (f : Nat) (l : List String) (i base : Nat)
    (h0 : i < l.length)
    (h1 : ¬(jsTrim (l.getD i "") = "" ∨ jsStartsWith (jsTrim (l.getD i "")) "#" = true))
    (h2 : ¬ getIndent (l.getD i "") < base)
    (h3 : base < getIndent (l.getD i "")) :
    entriesF (f + 1) l i base = entriesF f l (i + 1) base := by
  simp only [entriesF, if_pos h0, if_neg h1, if_neg h2, if_pos h3]

theorem eF_nocolon (f : Nat) (l : List String) (i base : Nat)
    (h0 : i < l.length)
    (h1 : ¬(jsTrim (l.getD i "") = "" ∨ jsStartsWith (jsTrim (l.getD i "")) "#" = true))
    (h2 : ¬ getIndent (l.getD i "") < base)
    (h3 : ¬ base < getIndent (l.getD i ""))
    (hbc : breakAtColon (jsTrim (l.getD i "")).data = none) :
    entriesF (f + 1) l i base = entriesF f l (i + 1) base := by
  simp only [entriesF, if_pos h0, if_neg h1, if_neg h2, if_neg h3, hbc]

theorem eF_value (f : Nat) (l : List String) (i base : Nat) (pre post : List Char)
    (h0 : i < l.length)
    (h1 : ¬(jsTrim (l.getD i "") = "" ∨ jsStartsWith (jsTrim (l.getD i "")) "#" = true))
    (h2 : ¬ getIndent (l.getD i "") < base)
    (h3 : ¬ base < getIndent (l.getD i ""))
    (hbc : breakAtColon (jsTrim (l.getD i "")).data = some (pre, post))
    (hrv : jsTrim (String.mk post) ≠ "") :
    entriesF (f + 1) l i base =
      ((jsTrim (String.mk pre),
        if jsStartsWith (jsTrim (String.mk post)) "[" && jsEndsWith (jsTrim (String.mk post)) "]" then
          Value.list (inlineItems (jsTrim (String.mk post)))
        else parseScalar (jsTrim (String.mk post))) :: (entriesF f l (i + 1) base).1,
       (entriesF f l (i + 1) base).2) := by
  simp only [entriesF, if_pos h0, if_neg h1, if_neg h2, if_neg h3, hbc, if_pos hrv]

theorem eF_null_oob (f : Nat) (l : List String) (i base : Nat) (pre post : List Char)
    (h0 : i < l.length)
    (h1 : ¬(jsTrim (l.getD i "") = "" ∨ jsStartsWith (jsTrim (l.getD i "")) "#" = true))
    (h2 : ¬ getIndent (l.getD i "") < base)
    (h3 : ¬ base < getIndent (l.getD i ""))
    (hbc : breakAtColon (jsTrim (l.getD i "")).data = some (pre, post))
    (hrv : ¬ jsTrim (String.mk post) ≠ "")
    (hj : l.length ≤ skipBlanks l (i + 1)) :
    entriesF (f + 1) l i base =
      ((jsTrim (String.mk pre), Value.null) :: (entriesF f l (skipBlanks l (i + 1)) base).1,
       (entriesF f l (skipBlanks l (i + 1)) base).2) := by
  simp only [entriesF, if_pos h0, if_neg h1, if_neg h2, if_neg h3, hbc, if_neg hrv, if_pos hj]

theorem eF_null_shallow (f : Nat) (l : List String) (i base : Nat) (pre post : List Char)
    (h0 : i < l.length)
    (h1 : ¬(jsTrim (l.getD i "") = "" ∨ jsStartsWith (jsTrim (l.getD i "")) "#" = true))
    (h2 : ¬ getIndent (l.getD i "") < base)
    (h3 : ¬ base < getIndent (l.getD i ""))
    (hbc : breakAtColon (jsTrim (l.getD i "")).data = some (pre, post))
    (hrv : ¬ jsTrim (String.mk post) ≠ "")
    (hj : ¬ l.length ≤ skipBlanks l (i + 1))
    (hci : getIndent (l.getD (skipBlanks l (i + 1)) "") ≤ base) :
    entriesF (f + 1) l i base =
      ((jsTrim (String.mk pre), Value.null) :: (entriesF f l (skipBlanks l (i + 1)) base).1,
       (entriesF f l (skipBlanks l (i + 1)) base).2) := by
  simp only [entriesF, if_pos h0, if_neg h1, if_neg h2, if_neg h3, hbc, if_neg hrv, if_neg hj,
    if_pos hci]

theorem eF_blocklist (f : Nat) (l : List String) (i base : Nat) (pre post : List Char)
    (h0 : i < l.length)
    (h1 : ¬(jsTrim (l.getD i "") = "" ∨ jsStartsWith (jsTrim (l.getD i "")) "#" = true))
    (h2 : ¬ getIndent (l.getD i "") < base)
    (h3 : ¬ base < getIndent (l.getD i ""))
    (hbc : breakAtColon (jsTrim (l.getD i "")).data = some (pre, post))
    (hrv : ¬ jsTrim (String.mk post) ≠ "")
    (hj : ¬ l.length ≤ skipBlanks l (i + 1))
    (hci : ¬ getIndent (l.getD (skipBlanks l (i + 1)) "") ≤ base)
    (hds : jsStartsWith (jsTrim (l.getD (skipBlanks l (i + 1)) "")) "- " = true) :
    entriesF (f + 1) l i base =
      ((jsTrim (String.mk pre),
        Value.list (consumeList l (getIndent (l.getD (skipBlanks l (i + 1)) ""))
          (skipBlanks l (i + 1))).1) ::
        (entriesF f l (consumeList l (getIndent (l.getD (skipBlanks l (i + 1)) ""))
          (skipBlanks l (i + 1))).2 base).1,
       (entriesF f l (consumeList l (getIndent (l.getD (skipBlanks l (i + 1)) ""))
          (skipBlanks l (i + 1))).2 base).2) := by
  simp only [entriesF, if_pos h0, if_neg h1, if_neg h2, if_neg h3, hbc, if_neg hrv, if_neg hj,
    if_neg hci, if_pos hds]

theorem eF_nested (f : Nat) (l : List String) (i base : Nat) (pre post : List Char)
    (h0 : i < l.length)
    (h1 : ¬(jsTrim (l.getD i "") = "" ∨ jsStartsWith (jsTrim (l.getD i "")) "#" = true))
    (h2 : ¬ getIndent (l.getD i "") < base)
    (h3 : ¬ base < getIndent (l.getD i ""))
    (hbc : breakAtColon (jsTrim (l.getD i "")).data = some (pre, post))
    (hrv : ¬ jsTrim (String.mk post) ≠ "")
    (hj : ¬ l.length ≤ skipBlanks l (i + 1))
    (hci : ¬ getIndent (l.getD (skipBlanks l (i + 1)) "") ≤ base)
    (hds : ¬ jsStartsWith (jsTrim (l.getD (skipBlanks l (i + 1)) "")) "- " = true) :
    entriesF (f + 1) l i base =
      ((jsTrim (String.mk pre),
        Value.map (parseYamlBlockF f l (skipBlanks l (i + 1))
          (getIndent (l.getD (skipBlanks l (i + 1)) "")) []).1) ::
        (entriesF f l (parseYamlBlockF f l (skipBlanks l (i + 1))
          (getIndent (l.getD (skipBlanks l (i + 1)) "")) []).2 base).1,
       (entriesF f l (parseYamlBlockF f l (skipBlanks l (i + 1))
          (getIndent (l.getD (skipBlanks l (i + 1)) "")) []).2 base).2) := by
  simp only [entriesF, if_pos h0, if_neg h1, if_neg h2, if_neg h3, hbc, if_neg hrv, if_neg hj,
    if_neg hci, if_neg hds]

/-- Folding the JS object assignments of an entry list into an object. -/
def insKVfold (acc : List (String × Value)) (es : List (String × Value)) :
    List (String × Value) :=
  es.foldl (fun m p => insertKV m p.1 p.2) acc

theorem insKVfold_cons (acc : List (String × Value)) (p : String × Value)
    (es : List (String × Value)) :
    insKVfold acc (p :: es) = insKVfold (insertKV acc p.1 p.2) es := rfl

theorem parseYamlBlockF_entries (l : List String) :
    ∀ f i base acc, parseYamlBlockF f l i base acc =
      (insKVfold acc (entriesF f l i base).1, (entriesF f l i base).2) := by
  intro f
  induction f with
  | zero => intro i base acc; rfl
  | succ f ih =>
    intro i base acc
    by_cases h0 : i < l.length
    · by_cases h1 : jsTrim (l.getD i "") = "" ∨ jsStartsWith (jsTrim (l.getD i "")) "#" = true
      · rw [pYB_skip f l i base acc h0 h1, eF_skip f l i base h0 h1]
        exact ih (i + 1) base acc
      · by_cases h2 : getIndent (l.getD i "") < base
        · rw [pYB_dedent f l i base acc h0 h1 h2, eF_dedent f l i base h0 h1 h2]
          rfl
        · by_cases h3 : base < getIndent (l.getD i "")
          · rw [pYB_deep f l i base acc h0 h1 h2 h3, eF_deep f l i base h0 h1 h2 h3]
            exact ih (i + 1) base acc
          · rcases hbc : breakAtColon (jsTrim (l.getD i "")).data with _ | ⟨pre, post⟩
            · rw [pYB_nocolon f l i base acc h0 h1 h2 h3 hbc, eF_nocolon f l i base h0 h1 h2 h3 hbc]
              exact ih (i + 1) base acc
            · by_cases hrv : jsTrim (String.mk post) ≠ ""
              · rw [pYB_value f l i base acc pre post h0 h1 h2 h3 hbc hrv,
                  eF_value f l i base pre post h0 h1 h2 h3 hbc hrv, insKVfold_cons]
                exact ih (i + 1) base _
              · by_cases hj : l.length ≤ skipBlanks l (i + 1)
                · rw [pYB_null_oob f l i base acc pre post h0 h1 h2 h3 hbc hrv hj,
                    eF_null_oob f l i base pre post h0 h1 h2 h3 hbc hrv hj, insKVfold_cons]
                  exact ih _ base _
                · by_cases hci : getIndent (l.getD (skipBlanks l (i + 1)) "") ≤ base
                  · rw [pYB_null_shallow f l i base acc pre post h0 h1 h2 h3 hbc hrv hj hci,
                      eF_null_shallow f l i base pre post h0 h1 h2 h3 hbc hrv hj hci, insKVfold_cons]
                    exact ih _ base _
                  · by_cases hds :
                        jsStartsWith (jsTrim (l.getD (skipBlanks l (i + 1)) "")) "- " = true
                    · rw [pYB_blocklist f l i base acc pre post h0 h1 h2 h3 hbc hrv hj hci hds,
                        eF_blocklist f l i base pre post h0 h1 h2 h3 hbc hrv hj hci hds,
                        insKVfold_cons]
                      exact ih _ base _
                    · rw [pYB_nested f l i base acc pre post h0 h1 h2 h3 hbc hrv hj hci hds,
                        eF_nested f l i base pre post h0 h1 h2 h3 hbc hrv hj hci hds,
                        insKVfold_cons]
                      exact ih _ base _
    · rw [pYB_oob f l i base acc h0, eF_oob f l i base h0]
      rfl

/-- The keys of a mapping, in order. -/
def keysOf (m : List (String × Value)) : List String := m.map Prod.fst

/-- Key-set effect of one JS object assignment: an existing key keeps
its position, a new key is appended. -/
def addKey (ks : List String) (k : String) : List String :=
  if k ∈ ks then ks else ks ++ [k]

/-- The keys of an occurrence list, each kept at the position of its
first occurrence (the claim's notion of insertion order). -/
def firstOccs (ks : List String) : List String := ks.foldl addKey []

/-- First-match lookup in a mapping, as JS property read. -/
def lookupKV (k : String) : List (String × Value) → Option Value
  | [] => none
  | p :: rest => if p.1 = k then some p.2 else lookupKV k rest

def lastValAux (k : String) : Option Value → List (String × Value) → Option Value
  | r, [] => r
  | r, p :: rest => lastValAux k (if p.1 = k then some p.2 else r) rest

/-- The value of the last occurrence of a key in an occurrence list. -/
def lastVal (es : List (String × Value)) (k : String) : Option Value :=
  lastValAux k none es


theorem any_key_iff_mem (m : List (String × Value)) (k : String) :
    (m.any fun p => p.1 == k) = true ↔ k ∈ m.map Prod.fst := by
  constructor
  · intro ha
    obtain ⟨p, hp, hb⟩ := List.any_eq_true.mp ha
    exact List.mem_map.mpr ⟨p, hp, beq_iff_eq.mp hb⟩
  · intro hm
    obtain ⟨p, hp, he⟩ := List.mem_map.mp hm
    exact List.any_eq_true.mpr ⟨p, hp, beq_iff_eq.mpr he⟩

theorem keys_insertKV (m : List (String × Value)) (k : String) (v : Value) :
    keysOf (insertKV m k v) = addKey (keysOf m) k := by
  unfold insertKV addKey keysOf
  by_cases h : (m.any fun p => p.1 == k) = true
  · rw [if_pos h, if_pos ((any_key_iff_mem m k).mp h), List.map_map]
    apply List.map_congr_left
    intro p _
    by_cases hk : p.1 = k
    · rw [Function.comp_apply, if_pos hk]
      exact hk.symm
    · rw [Function.comp_apply, if_neg hk]
  · rw [if_neg h, if_neg (fun hm => h ((any_key_iff_mem m k).mpr hm))]
    simp

theorem lookup_map_replace (k k' : String) (v : Value) :
    ∀ m : List (String × Value),
      lookupKV k' (m.map (fun p => if p.1 = k then (k, v) else p)) =
        if k' = k then (if (m.any fun p => p.1 == k) = true then some v else none)
        else lookupKV k' m := by
  intro m
  induction m with
  | nil =>
    by_cases hk : k' = k
    · rw [List.map_nil, if_pos hk, List.any_nil]
      rfl
    · rw [List.map_nil, if_neg hk]
  | cons p m ih =>
    rw [List.map_cons]
    by_cases hpk : p.1 = k
    · rw [if_pos hpk]
      simp only [lookupKV]
      by_cases hk : k' = k
      · subst hk
        have hany : ((p :: m).any fun q => q.1 == k') = true := by
          simp [List.any_cons, hpk]
        rw [if_pos rfl, if_pos rfl, hany, if_pos rfl]
      · rw [if_neg (fun h => hk h.symm), ih, if_neg hk, if_neg hk,
          if_neg (fun h : p.1 = k' => hk (hpk.symm.trans h).symm)]
    · rw [if_neg hpk]
      simp only [lookupKV]
      by_cases hpk' : p.1 = k'
      · have hk : ¬ k' = k := fun h => hpk (hpk'.trans h)
        rw [if_pos hpk', if_neg hk, if_pos hpk']
      · rw [if_neg hpk', ih]
        by_cases hk : k' = k
        · rw [if_pos hk, if_pos hk]
          have hb : (p.1 == k) = false := by simpa using hpk
          simp only [List.any_cons, hb, Bool.false_or]
        · rw [if_neg hk, if_neg hk, if_neg hpk']

theorem lookup_append_single (k k' : String) (v : Value) :
    ∀ m : List (String × Value), (m.any fun p => p.1 == k) = false →
      lookupKV k' (m ++ [(k, v)]) = if k' = k then some v else lookupKV k' m := by
  intro m
  induction m with
  | nil =>
    intro _
    simp only [List.nil_append, lookupKV]
    by_cases hk : k' = k
    · rw [if_pos hk.symm, if_pos hk]
    · rw [if_neg (fun h => hk h.symm), if_neg hk]
  | cons p m ih =>
    intro h
    rw [List.any_cons, Bool.or_eq_false_iff] at h
    have hpk : ¬ p.1 = k := by simpa using h.1
    rw [List.cons_append]
    simp only [lookupKV]
    by_cases hpk' : p.1 = k'
    · have hk : ¬ k' = k := fun hq => hpk (hpk' ▸ hq)
      rw [if_pos hpk', if_neg hk, if_pos hpk']
    · rw [if_neg hpk', ih h.2]
      by_cases hk : k' = k
      · rw [if_pos hk, if_pos hk]
      · rw [if_neg hk, if_neg hk, if_neg hpk']

theorem lookup_insertKV (m : List (String × Value)) (k k' : String) (v : Value) :
    lookupKV k' (insertKV m k v) = if k' = k then some v else lookupKV k' m := by
  unfold insertKV
  by_cases h : (m.any fun p => p.1 == k) = true
  · rw [if_pos h, lookup_map_replace k k' v m, h]
    by_cases hk : k' = k
    · rw [if_pos hk, if_pos hk]
      rfl
    · rw [if_neg hk, if_neg hk]
  · have hfalse : (m.any fun p => p.1 == k) = false := by
      cases hb : (m.any fun p => p.1 == k)
      · rfl
      · exact absurd hb h
    rw [if_neg h, lookup_append_single k k' v m hfalse]

theorem lastValAux_or (k : String) : ∀ (es : List (String × Value)) (r : Option Value),
    lastValAux k r es = (lastVal es k).or r := by
  intro es
  induction es with
  | nil => intro r; rfl
  | cons p es ih =>
    intro r
    show lastValAux k (if p.1 = k then some p.2 else r) es = _
    rw [ih]
    show _ = (lastValAux k (if p.1 = k then some p.2 else none) es).or r
    rw [ih]
    cases hx : lastVal es k with
    | some v => rfl
    | none =>
      by_cases hc : p.1 = k
      · rw [if_pos hc, if_pos hc]
        rfl
      · rw [if_neg hc, if_neg hc]
        rfl

theorem lookup_insKVfold (k : String) :
    ∀ (es acc : List (String × Value)),
      lookupKV k (insKVfold acc es) = (lastVal es k).or (lookupKV k acc) := by
  intro es
  induction es with
  | nil => intro acc; rfl
  | cons p es ih =>
    intro acc
    rw [insKVfold_cons, ih, lookup_insertKV]
    show _ = (lastValAux k (if p.1 = k then some p.2 else none) es).or (lookupKV k acc)
    rw [lastValAux_or]
    cases hx : lastVal es k with
    | some v => rfl
    | none =>
      by_cases hc : p.1 = k
      · rw [if_pos hc, if_pos hc.symm]
        rfl
      · rw [if_neg hc, if_neg (fun h => hc h.symm)]
        rfl

theorem keys_insKVfold :
    ∀ (es acc : List (String × Value)),
      keysOf (insKVfold acc es) = (es.map Prod.fst).foldl addKey (keysOf acc) := by
  intro es
  induction es with
  | nil => intro acc; rfl
  | cons p es ih =>
    intro acc
    rw [insKVfold_cons, ih, List.map_cons, List.foldl_cons, keys_insertKV]

theorem mem_foldl_addKey :
    ∀ (ks init : List String) (a : String),
      a ∈ ks.foldl addKey init ↔ a ∈ init ∨ a ∈ ks := by
  intro ks
  induction ks with
  | nil => intro init a; simp
  | cons k ks ih =>
    intro init a
    rw [List.foldl_cons, ih]
    unfold addKey
    by_cases hk : k ∈ init
    · rw [if_pos hk]
      constructor
      · rintro (h | h)
        · exact Or.inl h
        · exact Or.inr (List.mem_cons_of_mem _ h)
      · rintro (h | h)
        · exact Or.inl h
        · rcases List.mem_cons.mp h with rfl | h2
          · exact Or.inl hk
          · exact Or.inr h2
    · rw [if_neg hk]
      constructor
      · rintro (h | h)
        · rcases List.mem_append.mp h with h1 | h1
          · exact Or.inl h1
          · rw [List.mem_singleton] at h1
            subst h1
            exact Or.inr (List.mem_cons_self _ _)
        · exact Or.inr (List.mem_cons_of_mem _ h)
      · rintro (h | h)
        · exact Or.inl (List.mem_append.mpr (Or.inl h))
        · rcases List.mem_cons.mp h with rfl | h2
          · exact Or.inl (List.mem_append.mpr (Or.inr (List.mem_singleton.mpr rfl)))
          · exact Or.inr h2

theorem nodup_foldl_addKey :
    ∀ (ks init : List String), init.Nodup → (ks.foldl addKey init).Nodup := by
  intro ks
  induction ks with
  | nil => intro init h; exact h
  | cons k ks ih =>
    intro init h
    rw [List.foldl_cons]
    apply ih
    unfold addKey
    by_cases hk : k ∈ init
    · rwa [if_pos hk]
    · rw [if_neg hk]
      refine List.nodup_append.mpr ⟨h, List.nodup_singleton k, fun a ha hb => ?_⟩
      rw [List.mem_singleton] at hb
      exact hk (hb ▸ ha)

/-- C9: whenever the same key occurs more than once at the same
indentation level of the same block (i.e. more than once in the entry
assignments the loop performs for that block), the resulting mapping
holds that key exactly once, bound to the value of its last occurrence,
and the mapping's key sequence keeps every key at the position of its
first occurrence. -/
theorem duplicate_key_last_wins (f : Nat) (l : List String) (i base : Nat) (k : String)
    (hdup : 2 ≤ ((entriesF f l i base).1.map Prod.fst).count k) :
    ((parseYamlBlockF f l i base []).1.map Prod.fst).count k = 1 ∧
    lookupKV k (parseYamlBlockF f l i base []).1 = lastVal (entriesF f l i base).1 k ∧
    (parseYamlBlockF f l i base []).1.map Prod.fst =
      firstOccs ((entriesF f l i base).1.map Prod.fst) := by
  have hbr := parseYamlBlockF_entries l f i base []
  have hkeys : (parseYamlBlockF f l i base []).1.map Prod.fst =
      firstOccs ((entriesF f l i base).1.map Prod.fst) := by
    rw [hbr]
    show keysOf (insKVfold [] (entriesF f l i base).1) = _
    rw [keys_insKVfold]
    rfl
  have hnodup : ((parseYamlBlockF f l i base []).1.map Prod.fst).Nodup := by
    rw [hkeys]
    exact nodup_foldl_addKey _ [] List.nodup_nil
  have hmem : k ∈ (parseYamlBlockF f l i base []).1.map Prod.fst := by
    rw [hkeys]
    apply (mem_foldl_addKey _ [] k).mpr
    exact Or.inr (List.count_pos_iff.mp (by omega))
  refine ⟨List.count_eq_one_of_mem hnodup hmem, ?_, hkeys⟩
  rw [hbr]
  show lookupKV k (insKVfold [] (entriesF f l i base).1) = _
  rw [lookup_insKVfold]
  cases lastVal (entriesF f l i base).1 k <;> rfl

/-- Witness for C9: in `a: 1 / b: 2 / a: 3` the key `a` occurs twice;
the parse holds `a` once, at the first position, with the last value. -/
theorem duplicate_key_last_wins_witness :
    2 ≤ ((entriesF 5 ["a: 1", "b: 2", "a: 3"] 0 0).1.map Prod.fst).count "a" ∧
    (((parseYamlBlockF 5 ["a: 1", "b: 2", "a: 3"] 0 0 []).1.map Prod.fst).count "a" = 1 ∧
     lookupKV "a" (parseYamlBlockF 5 ["a: 1", "b: 2", "a: 3"] 0 0 []).1 =
       lastVal (entriesF 5 ["a: 1", "b: 2", "a: 3"] 0 0).1 "a" ∧
     (parseYamlBlockF 5 ["a: 1", "b: 2", "a: 3"] 0 0 []).1.map Prod.fst =
       firstOccs ((entriesF 5 ["a: 1", "b: 2", "a: 3"] 0 0).1.map Prod.fst)) :=
  ⟨by decide, duplicate_key_last_wins 5 ["a: 1", "b: 2", "a: 3"] 0 0 "a" (by decide)⟩

/-- Insert a line at position `p` of a line sequence. -/
def insAt : List String → Nat → String → List String
  | l, 0, b => b :: l
  | [], _ + 1, b => [b]
  | x :: xs, p + 1, b => x :: insAt xs p b

theorem insAt_length : ∀ (l : List String) (p : Nat) (b : String),
    (insAt l p b).length = l.length + 1 := by
  intro l
  induction l with
  | nil => intro p b; cases p <;> rfl
  | cons x xs ih =>
    intro p b
    cases p with
    | zero => rfl
    | succ p => simp only [insAt, List.length_cons, ih p b]

theorem insAt_getD_lt : ∀ (l : List String) (p : Nat) (b : String) (q : Nat),
    q < p → p ≤ l.length → (insAt l p b).getD q "" = l.getD q "" := by
  intro l
  induction l with
  | nil => intro p b q hq hp; simp at hp; omega
  | cons x xs ih =>
    intro p b q hq hp
    cases p with
    | zero => omega
    | succ p =>
      cases q with
      | zero => rfl
      | succ q =>
        show (insAt xs p b).getD q "" = xs.getD q ""
        exact ih p b q (by omega) (by simpa using hp)

theorem insAt_getD_self : ∀ (l : List String) (p : Nat) (b : String),
    p ≤ l.length → (insAt l p b).getD p "" = b := by
  intro l
  induction l with
  | nil =>
    intro p b hp
    simp at hp
    subst hp
    rfl
  | cons x xs ih =>
    intro p b hp
    cases p with
    | zero => rfl
    | succ p => exact ih p b (by simpa using hp)

theorem insAt_getD_succ : ∀ (l : List String) (p : Nat) (b : String) (q : Nat),
    p ≤ q → (insAt l p b).getD (q + 1) "" = l.getD q "" := by
  intro l
  induction l with
  | nil =>
    intro p b q hq
    cases p with
    | zero => cases q <;> rfl
    | succ p => cases q <;> rfl
  | cons x xs ih =>
    intro p b q hq
    cases p with
    | zero => rfl
    | succ p =>
      cases q with
      | zero => omega
      | succ q => exact ih p b q (by omega)

/-- The next-index shift caused by inserting one line at position `p`:
an index that reached or passed `p` moves up by one. -/
def shiftIdx (p n : Nat) : Nat := if p ≤ n then n + 1 else n

theorem skipBlanksF_behind (l : List String) (p : Nat) (b : String) :
    ∀ f i, p ≤ i → skipBlanksF f (insAt l p b) (i + 1) = skipBlanksF f l i + 1 := by
  intro f
  induction f with
  | zero => intro i _; rfl
  | succ f ih =>
    intro i h
    have hgd : (insAt l p b).getD (i + 1) "" = l.getD i "" := insAt_getD_succ l p b i h
    have hlen : i + 1 < (insAt l p b).length ↔ i < l.length := by
      rw [insAt_length]; omega
    by_cases hc : i < l.length ∧ jsTrim (l.getD i "") = ""
    · rw [sB_go f (insAt l p b) (i + 1) ⟨hlen.mpr hc.1, by rw [hgd]; exact hc.2⟩,
        sB_go f l i hc]
      exact ih (i + 1) (by omega)
    · rw [sB_stop f (insAt l p b) (i + 1)
        (fun hc2 => hc ⟨hlen.mp hc2.1, by rw [← hgd]; exact hc2.2⟩), sB_stop f l i hc]

theorem skipBlanks_behind (l : List String) (p : Nat) (b : String) (i : Nat) (h : p ≤ i) :
    skipBlanks (insAt l p b) (i + 1) = skipBlanks l i + 1 := by
  show skipBlanksF (insAt l p b).length (insAt l p b) (i + 1) = skipBlanksF l.length l i + 1
  rw [insAt_length, skipBlanksF_behind l p b (l.length + 1) i h,
    skipBlanksF_adequate l (l.length + 1) i (by omega)]
  rfl

theorem consumeListF_behind (l : List String) (p : Nat) (b : String) (ci : Nat) :
    ∀ f i, p ≤ i → consumeListF f (insAt l p b) ci (i + 1) =
      ((consumeListF f l ci i).1, (consumeListF f l ci i).2 + 1) := by
  intro f
  induction f with
  | zero => intro i _; rfl
  | succ f ih =>
    intro i h
    have hgd : (insAt l p b).getD (i + 1) "" = l.getD i "" := insAt_getD_succ l p b i h
    have hlen : i + 1 < (insAt l p b).length ↔ i < l.length := by
      rw [insAt_length]; omega
    by_cases h0 : i < l.length
    · by_cases h1 : jsTrim (l.getD i "") = ""
      · rw [cL_blank f (insAt l p b) ci (i + 1) (hlen.mpr h0) (by rw [hgd]; exact h1),
          cL_blank f l ci i h0 h1]
        exact ih (i + 1) (by omega)
      · by_cases h2 : getIndent (l.getD i "") < ci
        · rw [cL_dedent f (insAt l p b) ci (i + 1) (hlen.mpr h0)
            (by rw [hgd]; exact h1) (by rw [hgd]; exact h2), cL_dedent f l ci i h0 h1 h2]
        · by_cases h3 : jsStartsWith (jsTrim (l.getD i "")) "- " = true
          · rw [cL_item f (insAt l p b) ci (i + 1) (hlen.mpr h0) (by rw [hgd]; exact h1)
              (by rw [hgd]; exact h2) (by rw [hgd]; exact h3), cL_item f l ci i h0 h1 h2 h3,
              hgd, ih (i + 1) (by omega)]
          · rw [cL_stop f (insAt l p b) ci (i + 1) (hlen.mpr h0) (by rw [hgd]; exact h1)
              (by rw [hgd]; exact h2) (by rw [hgd]; exact h3), cL_stop f l ci i h0 h1 h2 h3]
    · rw [cL_oob f (insAt l p b) ci (i + 1) (fun hc => h0 (hlen.mp hc)), cL_oob f l ci i h0]

theorem consumeList_behind (l : List String) (p : Nat) (b : String) (ci i : Nat) (h : p ≤ i) :
    consumeList (insAt l p b) ci (i + 1) = ((consumeList l ci i).1, (consumeList l ci i).2 + 1) := by
  show consumeListF (insAt l p b).length (insAt l p b) ci (i + 1) = _
  rw [insAt_length, consumeListF_behind l p b ci (l.length + 1) i h,
    consumeListF_adequate l ci (l.length + 1) i (by omega)]

theorem parseYamlBlockF_behind (l : List String) (p : Nat) (b : String) :
    ∀ f i base acc, p ≤ i →
      parseYamlBlockF f (insAt l p b) (i + 1) base acc =
        ((parseYamlBlockF f l i base acc).1, (parseYamlBlockF f l i base acc).2 + 1) := by
  intro f
  induction f with
  | zero => intro i base acc _; rfl
  | succ f ih =>
    intro i base acc h
    have hgd : (insAt l p b).getD (i + 1) "" = l.getD i "" := insAt_getD_succ l p b i h
    have hlen : i + 1 < (insAt l p b).length ↔ i < l.length := by rw [insAt_length]; omega
    by_cases h0 : i < l.length
    · by_cases h1 : jsTrim (l.getD i "") = "" ∨ jsStartsWith (jsTrim (l.getD i "")) "#" = true
      · rw [pYB_skip f (insAt l p b) (i + 1) base acc (hlen.mpr h0) (by rw [hgd]; exact h1),
          pYB_skip f l i base acc h0 h1]
        exact ih (i + 1) base acc (by omega)
      · have h1' : ¬(jsTrim ((insAt l p b).getD (i + 1) "") = "" ∨
            jsStartsWith (jsTrim ((insAt l p b).getD (i + 1) "")) "#" = true) := by
          rw [hgd]; exact h1
        by_cases h2 : getIndent (l.getD i "") < base
        · rw [pYB_dedent f (insAt l p b) (i + 1) base acc (hlen.mpr h0) h1'
            (by rw [hgd]; exact h2), pYB_dedent f l i base acc h0 h1 h2]
        · have h2' : ¬ getIndent ((insAt l p b).getD (i + 1) "") < base := by
            rw [hgd]; exact h2
          by_cases h3 : base < getIndent (l.getD i "")
          · rw [pYB_deep f (insAt l p b) (i + 1) base acc (hlen.mpr h0) h1' h2'
              (by rw [hgd]; exact h3), pYB_deep f l i base acc h0 h1 h2 h3]
            exact ih (i + 1) base acc (by omega)
          · have h3' : ¬ base < getIndent ((insAt l p b).getD (i + 1) "") := by
              rw [hgd]; exact h3
            rcases hbc : breakAtColon (jsTrim (l.getD i "")).data with _ | ⟨pre, post⟩
            · rw [pYB_nocolon f (insAt l p b) (i + 1) base acc (hlen.mpr h0) h1' h2' h3'
                  (by rw [hgd]; exact hbc),
                pYB_nocolon f l i base acc h0 h1 h2 h3 hbc]
              exact ih (i + 1) base acc (by omega)
            · have hbc' : breakAtColon (jsTrim ((insAt l p b).getD (i + 1) "")).data =
                  some (pre, post) := by
                rw [hgd]; exact hbc
              by_cases hrv : jsTrim (String.mk post) ≠ ""
              · rw [pYB_value f (insAt l p b) (i + 1) base acc pre post (hlen.mpr h0)
                    h1' h2' h3' hbc' hrv,
                  pYB_value f l i base acc pre post h0 h1 h2 h3 hbc hrv]
                exact ih (i + 1) base _ (by omega)
              · have hsb : skipBlanks (insAt l p b) (i + 1 + 1) = skipBlanks l (i + 1) + 1 :=
                  skipBlanks_behind l p b (i + 1) (by omega)
                have hj0 : i + 1 ≤ skipBlanks l (i + 1) := skipBlanks_ge l (i + 1)
                have hgdj : (insAt l p b).getD (skipBlanks l (i + 1) + 1) "" =
                    l.getD (skipBlanks l (i + 1)) "" :=
                  insAt_getD_succ l p b _ (by omega)
                by_cases hj : l.length ≤ skipBlanks l (i + 1)
                · rw [pYB_null_oob f (insAt l p b) (i + 1) base acc pre post (hlen.mpr h0)
                      h1' h2' h3' hbc' hrv (by rw [hsb, insAt_length]; omega),
                    pYB_null_oob f l i base acc pre post h0 h1 h2 h3 hbc hrv hj, hsb]
                  exact ih _ base _ (by omega)
                · by_cases hci : getIndent (l.getD (skipBlanks l (i + 1)) "") ≤ base
                  · rw [pYB_null_shallow f (insAt l p b) (i + 1) base acc pre post (hlen.mpr h0)
                        h1' h2' h3' hbc' hrv (by rw [hsb, insAt_length]; omega)
                        (by rw [hsb, hgdj]; exact hci),
                      pYB_null_shallow f l i base acc pre post h0 h1 h2 h3 hbc hrv hj hci, hsb]
                    exact ih _ base _ (by omega)
                  · by_cases hds :
                        jsStartsWith (jsTrim (l.getD (skipBlanks l (i + 1)) "")) "- " = true
                    · have hcl := consumeList_ge l
                        (getIndent (l.getD (skipBlanks l (i + 1)) "")) (skipBlanks l (i + 1))
                      rw [pYB_blocklist f (insAt l p b) (i + 1) base acc pre post (hlen.mpr h0)
                          h1' h2' h3' hbc' hrv (by rw [hsb, insAt_length]; omega)
                          (by rw [hsb, hgdj]; exact hci) (by rw [hsb, hgdj]; exact hds),
                        pYB_blocklist f l i base acc pre post h0 h1 h2 h3 hbc hrv hj hci hds,
                        hsb, hgdj,
                        consumeList_behind l p b (getIndent (l.getD (skipBlanks l (i + 1)) ""))
                          (skipBlanks l (i + 1)) (by omega)]
                      exact ih _ base _ (by omega)
                    · rw [pYB_nested f (insAt l p b) (i + 1) base acc pre post (hlen.mpr h0)
                          h1' h2' h3' hbc' hrv (by rw [hsb, insAt_length]; omega)
                          (by rw [hsb, hgdj]; exact hci) (by rw [hsb, hgdj]; exact hds),
                        pYB_nested f l i base acc pre post h0 h1 h2 h3 hbc hrv hj hci hds,
                        hsb, hgdj,
                        ih (skipBlanks l (i + 1)) (getIndent (l.getD (skipBlanks l (i + 1)) "")) []
                          (by omega)]
                      have hn := parseYamlBlockF_ge f l (skipBlanks l (i + 1))
                        (getIndent (l.getD (skipBlanks l (i + 1)) "")) []
                      exact ih _ base _ (by omega)
    · rw [pYB_oob f (insAt l p b) (i + 1) base acc (fun hc => h0 (hlen.mp hc)),
        pYB_oob f l i base acc h0]

theorem skipBlanksF_ahead (l : List String) (p : Nat) (b : String) (hb : jsTrim b = "")
    (hp : p ≤ l.length) :
    ∀ f i, l.length - i ≤ f → i ≤ p →
      skipBlanksF (f + 1) (insAt l p b) i = shiftIdx p (skipBlanksF f l i) := by
  intro f
  induction f with
  | zero =>
    intro i h hip
    have hie : i = p := by omega
    subst hie
    rw [sB_go 0 (insAt l i b) i ⟨by rw [insAt_length]; omega,
      by rw [insAt_getD_self l i b hp]; exact hb⟩]
    show i + 1 = shiftIdx i i
    unfold shiftIdx
    rw [if_pos (le_refl i)]
  | succ f ih =>
    intro i h hip
    by_cases hipe : i = p
    · subst hipe
      rw [sB_go (f + 1) (insAt l i b) i ⟨by rw [insAt_length]; omega,
          by rw [insAt_getD_self l i b hp]; exact hb⟩,
        skipBlanksF_behind l i b (f + 1) i (le_refl i)]
      have hge := skipBlanksF_ge (f + 1) l i
      unfold shiftIdx
      rw [if_pos hge]
    · have hilt : i < p := by omega
      have h0 : i < l.length := by omega
      have hgd := insAt_getD_lt l p b i hilt hp
      by_cases h1 : jsTrim (l.getD i "") = ""
      · rw [sB_go (f + 1) (insAt l p b) i ⟨by rw [insAt_length]; omega, by rw [hgd]; exact h1⟩,
          sB_go f l i ⟨h0, h1⟩]
        exact ih (i + 1) (by omega) (by omega)
      · rw [sB_stop (f + 1) (insAt l p b) i (fun hc => h1 (by rw [← hgd]; exact hc.2)),
          sB_stop f l i (fun hc => h1 hc.2)]
        show i = shiftIdx p i
        unfold shiftIdx
        rw [if_neg (by omega)]

theorem skipBlanks_ahead (l : List String) (p : Nat) (b : String) (hb : jsTrim b = "")
    (hp : p ≤ l.length) (i : Nat) (hip : i ≤ p) :
    skipBlanks (insAt l p b) i = shiftIdx p (skipBlanks l i) := by
  show skipBlanksF (insAt l p b).length (insAt l p b) i = _
  rw [insAt_length, skipBlanksF_ahead l p b hb hp l.length i (by omega) hip]
  rfl

theorem consumeListF_ahead (l : List String) (p : Nat) (b : String) (hb : jsTrim b = "")
    (hp : p ≤ l.length) (ci : Nat) :
    ∀ f i, l.length - i ≤ f → i ≤ p →
      consumeListF (f + 1) (insAt l p b) ci i =
        ((consumeListF f l ci i).1, shiftIdx p (consumeListF f l ci i).2) := by
  intro f
  induction f with
  | zero =>
    intro i h hip
    have hie : i = p := by omega
    subst hie
    rw [cL_blank 0 (insAt l i b) ci i (by rw [insAt_length]; omega)
      (by rw [insAt_getD_self l i b hp]; exact hb)]
    show (([] : List String), i + 1) = (([] : List String), shiftIdx i i)
    unfold shiftIdx
    rw [if_pos (le_refl i)]
  | succ f ih =>
    intro i h hip
    by_cases hipe : i = p
    · subst hipe
      rw [cL_blank (f + 1) (insAt l i b) ci i (by rw [insAt_length]; omega)
          (by rw [insAt_getD_self l i b hp]; exact hb),
        consumeListF_behind l i b ci (f + 1) i (le_refl i)]
      have hge := consumeListF_ge (f + 1) l ci i
      unfold shiftIdx
      rw [if_pos hge]
    · have hilt : i < p := by omega
      have h0 : i < l.length := by omega
      have hgd := insAt_getD_lt l p b i hilt hp
      by_cases h1 : jsTrim (l.getD i "") = ""
      · rw [cL_blank (f + 1) (insAt l p b) ci i (by rw [insAt_length]; omega)
          (by rw [hgd]; exact h1), cL_blank f l ci i h0 h1]
        exact ih (i + 1) (by omega) (by omega)
      · by_cases h2 : getIndent (l.getD i "") < ci
        · rw [cL_dedent (f + 1) (insAt l p b) ci i (by rw [insAt_length]; omega)
            (by rw [hgd]; exact h1) (by rw [hgd]; exact h2), cL_dedent f l ci i h0 h1 h2]
          show (([] : List String), i) = (([] : List String), shiftIdx p i)
          unfold shiftIdx
          rw [if_neg (by omega)]
        · by_cases h3 : jsStartsWith (jsTrim (l.getD i "")) "- " = true
          · rw [cL_item (f + 1) (insAt l p b) ci i (by rw [insAt_length]; omega)
              (by rw [hgd]; exact h1) (by rw [hgd]; exact h2) (by rw [hgd]; exact h3),
              cL_item f l ci i h0 h1 h2 h3, hgd, ih (i + 1) (by omega) (by omega)]
          · rw [cL_stop (f + 1) (insAt l p b) ci i (by rw [insAt_length]; omega)
              (by rw [hgd]; exact h1) (by rw [hgd]; exact h2) (by rw [hgd]; exact h3),
              cL_stop f l ci i h0 h1 h2 h3]
            show (([] : List String), i) = (([] : List String), shiftIdx p i)
            unfold shiftIdx
            rw [if_neg (by omega)]

theorem consumeList_ahead (l : List String) (p : Nat) (b : String) (hb : jsTrim b = "")
    (hp : p ≤ l.length) (ci i : Nat) (hip : i ≤ p) :
    consumeList (insAt l p b) ci i =
      ((consumeList l ci i).1, shiftIdx p (consumeList l ci i).2) := by
  show consumeListF (insAt l p b).length (insAt l p b) ci i = _
  rw [insAt_length, consumeListF_ahead l p b hb hp ci l.length i (by omega) hip]
  rfl

theorem cont_behind_step (l : List String) (p : Nat) (b : String) (f idx base : Nat)
    (acc : List (String × Value)) (hpi : p ≤ idx) (hf : l.length - idx ≤ f) :
    parseYamlBlockF (f + 1) (insAt l p b) (idx + 1) base acc =
      ((parseYamlBlockF f l idx base acc).1, shiftIdx p (parseYamlBlockF f l idx base acc).2) := by
  rw [parseYamlBlockF_behind l p b (f + 1) idx base acc hpi,
    parseYamlBlockF_step l f idx base acc hf]
  unfold shiftIdx
  rw [if_pos (le_trans hpi (parseYamlBlockF_ge f l idx base acc))]

theorem parseYamlBlockF_ahead (l : List String) (p : Nat) (b : String) (hb : jsTrim b = "")
    (hp : p ≤ l.length) :
    ∀ f i base acc, l.length - i ≤ f → i ≤ p →
      parseYamlBlockF (f + 1) (insAt l p b) i base acc =
        ((parseYamlBlockF f l i base acc).1, shiftIdx p (parseYamlBlockF f l i base acc).2) := by
  intro f
  induction f with
  | zero =>
    intro i base acc h hip
    have hie : i = p := by omega
    subst hie
    rw [pYB_skip 0 (insAt l i b) i base acc (by rw [insAt_length]; omega)
      (Or.inl (by rw [insAt_getD_self l i b hp]; exact hb))]
    unfold shiftIdx
    rw [if_pos (parseYamlBlockF_ge 0 l i base acc)]
    rfl
  | succ f ih =>
    intro i base acc h hip
    by_cases hipe : i = p
    · subst hipe
      rw [pYB_skip (f + 1) (insAt l i b) i base acc (by rw [insAt_length]; omega)
          (Or.inl (by rw [insAt_getD_self l i b hp]; exact hb)),
        parseYamlBlockF_behind l i b (f + 1) i base acc (le_refl i)]
      unfold shiftIdx
      rw [if_pos (parseYamlBlockF_ge (f + 1) l i base acc)]
    · have hilt : i < p := by omega
      have h0 : i < l.length := by omega
      have h0' : i < (insAt l p b).length := by rw [insAt_length]; omega
      have hgd := insAt_getD_lt l p b i hilt hp
      by_cases h1 : jsTrim (l.getD i "") = "" ∨ jsStartsWith (jsTrim (l.getD i "")) "#" = true
      · rw [pYB_skip (f + 1) (insAt l p b) i base acc h0' (by rw [hgd]; exact h1),
          pYB_skip f l i base acc h0 h1]
        exact ih (i + 1) base acc (by omega) (by omega)
      · have h1' : ¬(jsTrim ((insAt l p b).getD i "") = "" ∨
            jsStartsWith (jsTrim ((insAt l p b).getD i "")) "#" = true) := by
          rw [hgd]; exact h1
        by_cases h2 : getIndent (l.getD i "") < base
        · rw [pYB_dedent (f + 1) (insAt l p b) i base acc h0' h1' (by rw [hgd]; exact h2),
            pYB_dedent f l i base acc h0 h1 h2]
          unfold shiftIdx
          rw [if_neg (by omega : ¬ p ≤ i)]
        · have h2' : ¬ getIndent ((insAt l p b).getD i "") < base := by rw [hgd]; exact h2
          by_cases h3 : base < getIndent (l.getD i "")
          · rw [pYB_deep (f + 1) (insAt l p b) i base acc h0' h1' h2' (by rw [hgd]; exact h3),
              pYB_deep f l i base acc h0 h1 h2 h3]
            exact ih (i + 1) base acc (by omega) (by omega)
          · have h3' : ¬ base < getIndent ((insAt l p b).getD i "") := by rw [hgd]; exact h3
            rcases hbc : breakAtColon (jsTrim (l.getD i "")).data with _ | ⟨pre, post⟩
            · rw [pYB_nocolon (f + 1) (insAt l p b) i base acc h0' h1' h2' h3'
                  (by rw [hgd]; exact hbc),
                pYB_nocolon f l i base acc h0 h1 h2 h3 hbc]
              exact ih (i + 1) base acc (by omega) (by omega)
            · have hbc' : breakAtColon (jsTrim ((insAt l p b).getD i "")).data =
                  some (pre, post) := by
                rw [hgd]; exact hbc
              by_cases hrv : jsTrim (String.mk post) ≠ ""
              · rw [pYB_value (f + 1) (insAt l p b) i base acc pre post h0' h1' h2' h3' hbc' hrv,
                  pYB_value f l i base acc pre post h0 h1 h2 h3 hbc hrv]
                exact ih (i + 1) base _ (by omega) (by omega)
              · have hsa : skipBlanks (insAt l p b) (i + 1) = shiftIdx p (skipBlanks l (i + 1)) :=
                  skipBlanks_ahead l p b hb hp (i + 1) (by omega)
                have hj0 : i + 1 ≤ skipBlanks l (i + 1) := skipBlanks_ge l (i + 1)
                by_cases hj : l.length ≤ skipBlanks l (i + 1)
                · have hjp : p ≤ skipBlanks l (i + 1) := by omega
                  have hj' : skipBlanks (insAt l p b) (i + 1) = skipBlanks l (i + 1) + 1 := by
                    rw [hsa]; unfold shiftIdx; rw [if_pos hjp]
                  rw [pYB_null_oob (f + 1) (insAt l p b) i base acc pre post h0' h1' h2' h3'
                      hbc' hrv (by rw [hj', insAt_length]; omega),
                    pYB_null_oob f l i base acc pre post h0 h1 h2 h3 hbc hrv hj, hj']
                  exact cont_behind_step l p b f (skipBlanks l (i + 1)) base _ hjp (by omega)
                · by_cases hci : getIndent (l.getD (skipBlanks l (i + 1)) "") ≤ base
                  · by_cases hjp : p ≤ skipBlanks l (i + 1)
                    · have hj' : skipBlanks (insAt l p b) (i + 1) = skipBlanks l (i + 1) + 1 := by
                        rw [hsa]; unfold shiftIdx; rw [if_pos hjp]
                      have hgdj : (insAt l p b).getD (skipBlanks l (i + 1) + 1) "" =
                          l.getD (skipBlanks l (i + 1)) "" := insAt_getD_succ l p b _ hjp
                      rw [pYB_null_shallow (f + 1) (insAt l p b) i base acc pre post h0' h1' h2'
                          h3' hbc' hrv (by rw [hj', insAt_length]; omega)
                          (by rw [hj', hgdj]; exact hci),
                        pYB_null_shallow f l i base acc pre post h0 h1 h2 h3 hbc hrv hj hci, hj']
                      exact cont_behind_step l p b f (skipBlanks l (i + 1)) base _ hjp (by omega)
                    · have hjlt : skipBlanks l (i + 1) < p := by omega
                      have hj' : skipBlanks (insAt l p b) (i + 1) = skipBlanks l (i + 1) := by
                        rw [hsa]; unfold shiftIdx; rw [if_neg hjp]
                      have hgdj : (insAt l p b).getD (skipBlanks l (i + 1)) "" =
                          l.getD (skipBlanks l (i + 1)) "" := insAt_getD_lt l p b _ hjlt hp
                      rw [pYB_null_shallow (f + 1) (insAt l p b) i base acc pre post h0' h1' h2'
                          h3' hbc' hrv (by rw [hj', insAt_length]; omega)
                          (by rw [hj', hgdj]; exact hci),
                        pYB_null_shallow f l i base acc pre post h0 h1 h2 h3 hbc hrv hj hci, hj']
                      exact ih (skipBlanks l (i + 1)) base _ (by omega) (by omega)
                  · by_cases hds :
                        jsStartsWith (jsTrim (l.getD (skipBlanks l (i + 1)) "")) "- " = true
                    · have hcl := consumeList_ge l
                        (getIndent (l.getD (skipBlanks l (i + 1)) "")) (skipBlanks l (i + 1))
                      by_cases hjp : p ≤ skipBlanks l (i + 1)
                      · have hj' : skipBlanks (insAt l p b) (i + 1) = skipBlanks l (i + 1) + 1 := by
                          rw [hsa]; unfold shiftIdx; rw [if_pos hjp]
                        have hgdj : (insAt l p b).getD (skipBlanks l (i + 1) + 1) "" =
                            l.getD (skipBlanks l (i + 1)) "" := insAt_getD_succ l p b _ hjp
                        rw [pYB_blocklist (f + 1) (insAt l p b) i base acc pre post h0' h1' h2'
                            h3' hbc' hrv (by rw [hj', insAt_length]; omega)
                            (by rw [hj', hgdj]; exact hci) (by rw [hj', hgdj]; exact hds),
                          pYB_blocklist f l i base acc pre post h0 h1 h2 h3 hbc hrv hj hci hds,
                          hj', hgdj,
                          consumeList_behind l p b (getIndent (l.getD (skipBlanks l (i + 1)) ""))
                            (skipBlanks l (i + 1)) hjp]
                        exact cont_behind_step l p b f _ base _ (by omega) (by omega)
                      · have hjlt : skipBlanks l (i + 1) < p := by omega
                        have hj' : skipBlanks (insAt l p b) (i + 1) = skipBlanks l (i + 1) := by
                          rw [hsa]; unfold shiftIdx; rw [if_neg hjp]
                        have hgdj : (insAt l p b).getD (skipBlanks l (i + 1)) "" =
                            l.getD (skipBlanks l (i + 1)) "" := insAt_getD_lt l p b _ hjlt hp
                        rw [pYB_blocklist (f + 1) (insAt l p b) i base acc pre post h0' h1' h2'
                            h3' hbc' hrv (by rw [hj', insAt_length]; omega)
                            (by rw [hj', hgdj]; exact hci) (by rw [hj', hgdj]; exact hds),
                          pYB_blocklist f l i base acc pre post h0 h1 h2 h3 hbc hrv hj hci hds,
                          hj', hgdj,
                          consumeList_ahead l p b hb hp
                            (getIndent (l.getD (skipBlanks l (i + 1)) ""))
                            (skipBlanks l (i + 1)) (by omega)]
                        by_cases hcp : p ≤ (consumeList l (getIndent
                            (l.getD (skipBlanks l (i + 1)) "")) (skipBlanks l (i + 1))).2
                        · rw [show shiftIdx p (consumeList l (getIndent
                              (l.getD (skipBlanks l (i + 1)) "")) (skipBlanks l (i + 1))).2 =
                              (consumeList l (getIndent (l.getD (skipBlanks l (i + 1)) ""))
                                (skipBlanks l (i + 1))).2 + 1 from by
                            unfold shiftIdx; rw [if_pos hcp]]
                          exact cont_behind_step l p b f _ base _ hcp (by omega)
                        · rw [show shiftIdx p (consumeList l (getIndent
                              (l.getD (skipBlanks l (i + 1)) "")) (skipBlanks l (i + 1))).2 =
                              (consumeList l (getIndent (l.getD (skipBlanks l (i + 1)) ""))
                                (skipBlanks l (i + 1))).2 from by
                            unfold shiftIdx; rw [if_neg hcp]]
                          exact ih _ base _ (by omega) (by omega)
                    · by_cases hjp : p ≤ skipBlanks l (i + 1)
                      · have hj' : skipBlanks (insAt l p b) (i + 1) = skipBlanks l (i + 1) + 1 := by
                          rw [hsa]; unfold shiftIdx; rw [if_pos hjp]
                        have hgdj : (insAt l p b).getD (skipBlanks l (i + 1) + 1) "" =
                            l.getD (skipBlanks l (i + 1)) "" := insAt_getD_succ l p b _ hjp
                        have hn := parseYamlBlockF_ge f l (skipBlanks l (i + 1))
                          (getIndent (l.getD (skipBlanks l (i + 1)) "")) []
                        rw [pYB_nested (f + 1) (insAt l p b) i base acc pre post h0' h1' h2'
                            h3' hbc' hrv (by rw [hj', insAt_length]; omega)
                            (by rw [hj', hgdj]; exact hci) (by rw [hj', hgdj]; exact hds),
                          pYB_nested f l i base acc pre post h0 h1 h2 h3 hbc hrv hj hci hds,
                          hj', hgdj,
                          cont_behind_step l p b f (skipBlanks l (i + 1))
                            (getIndent (l.getD (skipBlanks l (i + 1)) "")) [] hjp (by omega),
                          show shiftIdx p (parseYamlBlockF f l (skipBlanks l (i + 1))
                              (getIndent (l.getD (skipBlanks l (i + 1)) "")) []).2 =
                            (parseYamlBlockF f l (skipBlanks l (i + 1))
                              (getIndent (l.getD (skipBlanks l (i + 1)) "")) []).2 + 1 from by
                            unfold shiftIdx; rw [if_pos (by omega)]]
                        exact cont_behind_step l p b f _ base _ (by omega) (by omega)
                      · have hjlt : skipBlanks l (i + 1) < p := by omega
                        have hj' : skipBlanks (insAt l p b) (i + 1) = skipBlanks l (i + 1) := by
                          rw [hsa]; unfold shiftIdx; rw [if_neg hjp]
                        have hgdj : (insAt l p b).getD (skipBlanks l (i + 1)) "" =
                            l.getD (skipBlanks l (i + 1)) "" := insAt_getD_lt l p b _ hjlt hp
                        have hn := parseYamlBlockF_ge f l (skipBlanks l (i + 1))
                          (getIndent (l.getD (skipBlanks l (i + 1)) "")) []
                        rw [pYB_nested (f + 1) (insAt l p b) i base acc pre post h0' h1' h2'
                            h3' hbc' hrv (by rw [hj', insAt_length]; omega)
                            (by rw [hj', hgdj]; exact hci) (by rw [hj', hgdj]; exact hds),
                          pYB_nested f l i base acc pre post h0 h1 h2 h3 hbc hrv hj hci hds,
                          hj', hgdj,
                          ih (skipBlanks l (i + 1))
                            (getIndent (l.getD (skipBlanks l (i + 1)) "")) [] (by omega) (by omega)]
                        by_cases hnp : p ≤ (parseYamlBlockF f l (skipBlanks l (i + 1))
                            (getIndent (l.getD (skipBlanks l (i + 1)) "")) []).2
                        · rw [show shiftIdx p (parseYamlBlockF f l (skipBlanks l (i + 1))
                              (getIndent (l.getD (skipBlanks l (i + 1)) "")) []).2 =
                              (parseYamlBlockF f l (skipBlanks l (i + 1))
                                (getIndent (l.getD (skipBlanks l (i + 1)) "")) []).2 + 1 from by
                            unfold shiftIdx; rw [if_pos hnp]]
                          exact cont_behind_step l p b f _ base _ hnp (by omega)
                        · rw [show shiftIdx p (parseYamlBlockF f l (skipBlanks l (i + 1))
                              (getIndent (l.getD (skipBlanks l (i + 1)) "")) []).2 =
                              (parseYamlBlockF f l (skipBlanks l (i + 1))
                                (getIndent (l.getD (skipBlanks l (i + 1)) "")) []).2 from by
                            unfold shiftIdx; rw [if_neg hnp]]
                          exact ih _ base _ (by omega) (by omega)

/-- C4 counterexample: inserting a `#`-comment line between the entry
`meta:` and its nested child block (a position the claim explicitly
includes) changes the parsed mapping: `meta` becomes null instead of the
nested mapping, because the child lookahead after an empty-valued key
skips only blank lines, so the comment preempts the child block and the
indented child line is then skipped defensively. -/
theorem comment_insertion_counterexample :
    jsStartsWith (jsTrim "# note") "#" = true ∧
    parseLines ["meta:", "  draft: true"] = [("meta", Value.map [("draft", Value.bool true)])] ∧
    parseLines (insAt ["meta:", "  draft: true"] 1 "# note") = [("meta", Value.null)] ∧
    parseLines (insAt ["meta:", "  draft: true"] 1 "# note") ≠
      parseLines ["meta:", "  draft: true"] := by
  refine ⟨rfl, rfl, rfl, fun hc => ?_⟩
  rw [show parseLines (insAt ["meta:", "  draft: true"] 1 "# note") =
        [("meta", Value.null)] from rfl,
      show parseLines ["meta:", "  draft: true"] =
        [("meta", Value.map [("draft", Value.bool true)])] from rfl] at hc
  injection hc with h1 _
  exact Value.noConfusion (congrArg Prod.snd h1)

/-- C4 (amended): inserting any blank line at any position of the line
sequence — between entries, before a key's nested child block or block
list, or at either end — leaves the parsed mapping unchanged.  The
claim's extension to `#`-comment lines is false (see the counterexample
above): a comment between a key's empty-value line and its deeper child
block changes the result, because the child lookahead skips only blank
lines. -/
theorem blank_insertion_invariance (l : List String) (p : Nat) (b : String)
    (hp : p ≤ l.length) (hb : jsTrim b = "") :
    parseLines (insAt l p b) = parseLines l := by
  show (parseYamlBlockF (insAt l p b).length (insAt l p b) 0 0 []).1 = _
  rw [insAt_length, parseYamlBlockF_ahead l p b hb hp l.length 0 0 [] (by omega) (by omega)]
  rfl

/-- Witness for the amended C4 theorem: inserting a whitespace-only line
between `a: 1` and `b: 2` leaves the parse unchanged. -/
theorem blank_insertion_invariance_witness :
    (1 ≤ (["a: 1", "b: 2"] : List String).length ∧ jsTrim "  " = "") ∧
    parseLines (insAt ["a: 1", "b: 2"] 1 "  ") = parseLines ["a: 1", "b: 2"] :=
  ⟨⟨by decide, by decide⟩,
   blank_insertion_invariance ["a: 1", "b: 2"] 1 "  " (by decide) (by decide)⟩

/-- A JSON value as far as the plugin inspects one: null (also standing
for `undefined`), strings, and objects. -/
inductive JsonVal where
  | null
  | str (s : String)
  | obj (fields : List (String × JsonVal))

def jsGetFields (k : String) : List (String × JsonVal) → JsonVal
  | [] => .null
  | p :: rest => if p.1 = k then p.2 else jsGetFields k rest

/-- Optional-chaining property access `x?.k`: null/undefined and
non-objects yield undefined (modeled as null). -/
def jsGet : JsonVal → String → JsonVal
  | .obj fields, k => jsGetFields k fields
  | _, _ => .null

/-- The nullish-coalescing operator `a ?? b`. -/
def jsCoalesce (a b : JsonVal) : JsonVal :=
  match a with
  | .null => b
  | v => v

/-- JS truthiness of the values our model can hold (`if (body)`). -/
def jsTruthy : JsonVal → Bool
  | .null => false
  | .str s => decide (s ≠ "")
  | .obj _ => true

def asStr : JsonVal → String
  | .str s => s
  | _ => ""

/-- Substring containment, JS `String.prototype.includes`. -/
def listContains (needle : List Char) : List Char → Bool
  | [] => needle.isEmpty
  | c :: rest => needle.isPrefixOf (c :: rest) || listContains needle rest

/-- Characters `encodeURIComponent` leaves unescaped. -/
def isUnreservedChar (c : Char) : Bool :=
  c.isAlphanum || c = '-' || c = '_' || c = '.' || c = '!' || c = '~' ||
    c = '*' || c = '\'' || c = '(' || c = ')'

def hexDigitUpper (n : Nat) : Char :=
  if n < 10 then Char.ofNat (48 + n) else Char.ofNat (55 + n)

/-- UTF-8 bytes of a character. -/
def utf8Bytes (c : Char) : List Nat :=
  let n := c.toNat
  if n < 0x80 then [n]
  else if n < 0x800 then [0xC0 + n / 0x40, 0x80 + n % 0x40]
  else if n < 0x10000 then [0xE0 + n / 0x1000, 0x80 + (n / 0x40) % 0x40, 0x80 + n % 0x40]
  else [0xF0 + n / 0x40000, 0x80 + (n / 0x1000) % 0x40, 0x80 + (n / 0x40) % 0x40, 0x80 + n % 0x40]

def pctByte (n : Nat) : List Char :=
  ['%', hexDigitUpper (n / 16), hexDigitUpper (n % 16)]

/-- JS `encodeURIComponent`: unreserved characters pass through, all
others are percent-encoded byte-wise (uppercase hex). -/
def encodeURIComponent (s : String) : String :=
  String.mk (s.data.foldr
    (fun c acc =>
      (if isUnreservedChar c then [c]
       else (utf8Bytes c).foldr (fun b a => pctByte b ++ a) []) ++ acc) [])

/-- One observed HTTP behavior for a URL: the transport throws, or a
response arrives with a status flag, a content type, whether `.json()`
decoding throws, and the decoded JSON value. -/
inductive HttpBehavior where
  | throw
  | resp (ok : Bool) (contentType : String) (jsonThrows : Bool) (json : JsonVal)

/-- A network oracle: what each URL returns. -/
def Net := String → HttpBehavior

/-- `fetchJson` from parseFrontmatter.ts: non-success status or a
content type not containing `application/json` yield null; a transport
or decode exception propagates (as `Except.error`) to the caller's
`try`. -/
def fetchJson (net : Net) (url : String) : Except Unit (Option JsonVal) :=
  match net url with
  | .throw => .error ()
  | .resp ok ct jt j =>
    if ok = false then .ok none
    else if listContains "application/json".data ct.data = false then .ok none
    else if jt then .error ()
    else .ok (some j)

/-- The body lookup of `fetchRevisionBody`:
`json?.revision?.body ?? ''`. -/
def revBodyChain (j : JsonVal) : JsonVal :=
  jsCoalesce (jsGet (jsGet j "revision") "body") (.str "")

/-- One loop iteration of `fetchRevisionBody` for one API base: an
exception is caught (logged) and a falsy body is skipped — both continue
with the next base; a truthy body is returned. -/
def attemptRevision (net : Net) (url : String) : Option String :=
  match fetchJson net url with
  | .error _ => none
  | .ok none => none
  | .ok (some j) =>
    if jsTruthy (revBodyChain j) then some (asStr (revBodyChain j)) else none

def fetchRevisionBodyGo (net : Net) (pageId revisionId : String) :
    List String → Option String × List String
  | [] => (none, [])
  | pfx :: rest =>
    let url := pfx ++ "/revisions/" ++ encodeURIComponent revisionId ++ "?pageId=" ++
      encodeURIComponent pageId
    match attemptRevision net url with
    | some s => (some s, [url])
    | none =>
      let r := fetchRevisionBodyGo net pageId revisionId rest
      (r.1, url :: r.2)

/-- The ordered API path bases tried by the fetchers. -/
def API_PREFIXES : List String := ["/_api/v3", "/api/v3"]

/-- `fetchRevisionBody` from parseFrontmatter.ts, also returning the
list of URLs requested. -/
def fetchRevisionBody (net : Net) (pageId revisionId : String) : Option String × List String :=
  fetchRevisionBodyGo net pageId revisionId API_PREFIXES

/-- The closing-marker search of the frontmatter regex
`^---\r?\n([\s\S]*?)\r?\n---`: the least offset at which `\r\n---` or
`\n---` begins (lazy group). -/
def findClose : List Char → Option Nat
  | [] => none
  | c :: rest =>
    if "\r\n---".data.isPrefixOf (c :: rest) = true ∨ "\n---".data.isPrefixOf (c :: rest) = true
    then some 0
    else (findClose rest).map (· + 1)

/-- `ParsedFrontmatter` from parseFrontmatter.ts. -/
structure ParsedFrontmatter where
  rawYaml : String
  data : List (String × Value)

def extractAfterOpen (afterOpen : List Char) : Option ParsedFrontmatter :=
  match findClose afterOpen with
  | none => none
  | some g =>
    let rawYaml := jsTrim (String.mk (afterOpen.take g))
    some ⟨rawYaml, parseSimpleYaml rawYaml⟩

/-- `extractFrontmatter` from parseFrontmatter.ts: a `---` marker line
at the very start (tolerating `\r\n`), the lazily-shortest enclosed
text, a closing `---` line; the enclosed text is trimmed and parsed. -/
def extractFrontmatter (markdown : String) : Option ParsedFrontmatter :=
  if "---\r\n".data.isPrefixOf markdown.data then extractAfterOpen (markdown.data.drop 5)
  else if "---\n".data.isPrefixOf markdown.data then extractAfterOpen (markdown.data.drop 4)
  else none

/-- `pathname.replace(/^\//, '')`. -/
def stripLeadingSlash (s : String) : String :=
  if jsStartsWith s "/" then String.mk s.data.tail else s

/-- The body lookup of the normal page fetch:
`json?.page?.revision?.body ?? json?.data?.page?.revision?.body ?? ''`. -/
def pageBodyChain (j : JsonVal) : JsonVal :=
  jsCoalesce (jsGet (jsGet (jsGet j "page") "revision") "body")
    (jsCoalesce (jsGet (jsGet (jsGet (jsGet j "data") "page") "revision") "body") (.str ""))

/-- One loop iteration of `fetchPageFrontmatter` for one API base: a
thrown exception is caught and logged, a non-success/non-JSON response
gives a null JSON value, and a falsy body `continue`s — all three move
on to the next base; a truthy body stops the loop. -/
def attemptPage (net : Net) (url : String) : Option String :=
  match fetchJson net url with
  | .error _ => none
  | .ok none => none
  | .ok (some j) =>
    if jsTruthy (pageBodyChain j) then some (asStr (pageBodyChain j)) else none

def fetchPageGo (net : Net) (pageId : String) :
    List String → Option ParsedFrontmatter × List String
  | [] => (none, [])
  | pfx :: rest =>
    let url := pfx ++ "/page?pageId=" ++ encodeURIComponent pageId
    match attemptPage net url with
    | some body => (extractFrontmatter body, [url])
    | none =>
      let r := fetchPageGo net pageId rest
      (r.1, url :: r.2)

/-- `fetchPageFrontmatter` from parseFrontmatter.ts (with the list of
URLs requested): empty page id returns null immediately; a supplied
revision id goes through `fetchRevisionBody`; otherwise each API base is
tried in order for `GET {base}/page?pageId=<id>`. -/
def fetchPageFrontmatter (net : Net) (pathname : String) (revisionId : Option String) :
    Option ParsedFrontmatter × List String :=
  let pageId := stripLeadingSlash pathname
  if pageId = "" then (none, [])
  else
    match revisionId with
    | some rid =>
      let r := fetchRevisionBody net pageId rid
      (match r.1 with
       | none => none
       | some body => extractFrontmatter body, r.2)
    | none => fetchPageGo net pageId API_PREFIXES

/-- The revision fetcher exactly as claim C7 words it (this is the shape
the older in-repo variant implements): for each API base in order,
request `GET {base}/pages/<id>/revisions/<revisionId>`, accept the body
at `revision.body` or `data.revision.body`, and return the empty outcome
when no base yields a body. -/
def revisionFetchPerClaim (net : Net) (pageId revisionId : String) :
    List String → Option String
  | [] => none
  | pfx :: rest =>
    let url := pfx ++ "/pages/" ++ encodeURIComponent pageId ++ "/revisions/" ++
      encodeURIComponent revisionId
    match fetchJson net url with
    | .error _ => revisionFetchPerClaim net pageId revisionId rest
    | .ok none => revisionFetchPerClaim net pageId revisionId rest
    | .ok (some j) =>
      let body := jsCoalesce (jsGet (jsGet j "revision") "body")
        (jsCoalesce (jsGet (jsGet (jsGet j "data") "revision") "body") (.str ""))
      if jsTruthy body then some (asStr body) else revisionFetchPerClaim net pageId revisionId rest

def revisionBodyPerClaim (net : Net) (pageId revisionId : String) : Option String :=
  revisionFetchPerClaim net pageId revisionId API_PREFIXES

/-- A network that serves the claimed endpoint
`/_api/v3/pages/p1/revisions/r1` with a body at `revision.body`, and
404s everything else. -/
def netClaimEndpoint : Net := fun url =>
  if url = "/_api/v3/pages/p1/revisions/r1" then
    .resp true "application/json" false (.obj [("revision", .obj [("body", .str "X")])])
  else .resp false "" false .null

/-- C7 counterexample: against a backend serving the claimed endpoint
shape, the code's revision fetcher returns the empty outcome — it never
requests `{base}/pages/<id>/revisions/<rid>`; it requests
`{base}/revisions/<rid>?pageId=<id>` (and probes only `revision.body`,
not `data.revision.body`).  The claim-shaped fetcher finds the body. -/
theorem revision_endpoint_counterexample :
    revisionBodyPerClaim netClaimEndpoint "p1" "r1" = some "X" ∧
    (fetchRevisionBody netClaimEndpoint "p1" "r1").1 = none ∧
    (fetchRevisionBody netClaimEndpoint "p1" "r1").2 =
      ["/_api/v3/revisions/r1?pageId=p1", "/api/v3/revisions/r1?pageId=p1"] ∧
    (fetchRevisionBody netClaimEndpoint "p1" "r1").1 ≠
      revisionBodyPerClaim netClaimEndpoint "p1" "r1" := by
  refine ⟨rfl, rfl, rfl, by decide⟩

/-- The revision fetcher as amended: for each API base in order, request
`GET {base}/revisions/<revisionId>?pageId=<id>`, accept the body at
`revision.body` only (an empty string counting as absent), and return
the empty outcome when no base yields a body. -/
def revisionFetchAmended (net : Net) (pageId revisionId : String) :
    List String → Option String
  | [] => none
  | pfx :: rest =>
    let url := pfx ++ "/revisions/" ++ encodeURIComponent revisionId ++ "?pageId=" ++
      encodeURIComponent pageId
    match fetchJson net url with
    | .error _ => revisionFetchAmended net pageId revisionId rest
    | .ok none => revisionFetchAmended net pageId revisionId rest
    | .ok (some j) =>
      if jsTruthy (revBodyChain j) then some (asStr (revBodyChain j))
      else revisionFetchAmended net pageId revisionId rest

theorem revision_go_eq_amended (net : Net) (pageId revisionId : String) :
    ∀ ps : List String, (fetchRevisionBodyGo net pageId revisionId ps).1 =
      revisionFetchAmended net pageId revisionId ps := by
  intro ps
  induction ps with
  | nil => rfl
  | cons pfx rest ih =>
    simp only [fetchRevisionBodyGo, revisionFetchAmended, attemptRevision]
    cases hf : fetchJson net (pfx ++ "/revisions/" ++ encodeURIComponent revisionId ++
        "?pageId=" ++ encodeURIComponent pageId) with
    | error e => simpa using ih
    | ok jo =>
      cases jo with
      | none => simpa using ih
      | some j =>
        by_cases ht : jsTruthy (revBodyChain j) = true
        · simp [ht]
        · simp [ht, ih]

/-- C7 (amended): the revision fetcher behaves exactly as the amended
description over every network oracle: same base order, endpoint
`{base}/revisions/<rid>?pageId=<id>`, single-envelope body at
`revision.body`, empty outcome when no base yields a body. -/
theorem revision_fetch_amended (net : Net) (pageId revisionId : String) :
    (fetchRevisionBody net pageId revisionId).1 =
      revisionFetchAmended net pageId revisionId API_PREFIXES :=
  revision_go_eq_amended net pageId revisionId API_PREFIXES

/-- Scenario B network: the first API base 404s the page request, the
second returns HTTP 200 JSON with the markdown at
`data.page.revision.body`. -/
def netScenarioB : Net := fun url =>
  if url = "/_api/v3/page?pageId=p1" then .resp false "" false .null
  else if url = "/api/v3/page?pageId=p1" then
    .resp true "application/json" false
      (.obj [("data", .obj [("page", .obj [("revision",
        .obj [("body", .str "---\ntitle: X\n---\nbody")])])])])
  else .throw

/-- C8: a prefix whose request returns a non-success status, a non-JSON
content type, a decode/transport exception, or a missing/empty body is
treated as that prefix failing, and the loop moves to the next prefix
(no exception escapes: the model of one attempt is total, with
`Except.error` absorbed into the failing-prefix outcome).  In
particular, in Scenario B (404 from the first prefix, JSON with
`data.page.revision.body` from the second) the second prefix's body is
used. -/
theorem page_fetch_fallthrough :
    (∀ (net : Net) url, net url = .throw → attemptPage net url = none) ∧
    (∀ (net : Net) url ct jt j, net url = .resp false ct jt j → attemptPage net url = none) ∧
    (∀ (net : Net) url ok ct jt j, net url = .resp ok ct jt j →
       listContains "application/json".data ct.data = false → attemptPage net url = none) ∧
    (∀ (net : Net) url ok ct j, net url = .resp ok ct true j → attemptPage net url = none) ∧
    (∀ (net : Net) url ok ct j, net url = .resp ok ct false j →
       jsTruthy (pageBodyChain j) = false → attemptPage net url = none) ∧
    (∀ (net : Net) pageId pfx rest,
       attemptPage net (pfx ++ "/page?pageId=" ++ encodeURIComponent pageId) = none →
       (fetchPageGo net pageId (pfx :: rest)).1 = (fetchPageGo net pageId rest).1) ∧
    (fetchPageFrontmatter netScenarioB "/p1" none).1 =
      some ⟨"title: X", [("title", Value.str "X")]⟩ ∧
    (fetchPageFrontmatter netScenarioB "/p1" none).2 =
      ["/_api/v3/page?pageId=p1", "/api/v3/page?pageId=p1"] := by
  refine ⟨?_, ?_, ?_, ?_, ?_, ?_, rfl, rfl⟩
  · intro net url h
    simp [attemptPage, fetchJson, h]
  · intro net url ct jt j h
    simp [attemptPage, fetchJson, h]
  · intro net url ok ct jt j h hct
    cases ok with
    | false => simp [attemptPage, fetchJson, h]
    | true => simp [attemptPage, fetchJson, h, hct]
  · intro net url ok ct j h
    cases ok with
    | false => simp [attemptPage, fetchJson, h]
    | true =>
      by_cases hct : listContains "application/json".data ct.data = false
      · simp [attemptPage, fetchJson, h, hct]
      · simp [attemptPage, fetchJson, h, hct]
  · intro net url ok ct j h hb
    cases ok with
    | false => simp [attemptPage, fetchJson, h]
    | true =>
      by_cases hct : listContains "application/json".data ct.data = false
      · simp [attemptPage, fetchJson, h, hct]
      · simp [attemptPage, fetchJson, h, hct, hb]
  · intro net pageId pfx rest h
    simp [fetchPageGo, h]

/-- Witness for C8 at concrete inputs: a throwing network fails the
attempt, and a failing first prefix falls through to the rest. -/
theorem page_fetch_fallthrough_witness :
    ((fun _ => HttpBehavior.throw) : Net) "/u" = HttpBehavior.throw ∧
    attemptPage (fun _ => HttpBehavior.throw) "/u" = none ∧
    attemptPage netScenarioB "/_api/v3/page?pageId=p1" = none ∧
    (fetchPageGo netScenarioB "p1" ("/_api/v3" :: ["/api/v3"])).1 =
      (fetchPageGo netScenarioB "p1" ["/api/v3"]).1 := by
  refine ⟨rfl, ?_, ?_, ?_⟩
  · exact page_fetch_fallthrough.1 (fun _ => HttpBehavior.throw) "/u" rfl
  · exact page_fetch_fallthrough.2.2.1 netScenarioB "/_api/v3/page?pageId=p1" false "" false
      JsonVal.null rfl rfl
  · exact page_fetch_fallthrough.2.2.2.2.2.1 netScenarioB "p1" "/_api/v3" ["/api/v3"]
      (page_fetch_fallthrough.2.2.1 netScenarioB "/_api/v3/page?pageId=p1" false "" false
        JsonVal.null rfl rfl)

/-- C10: when the pathname is empty or a bare slash the derived page id
is empty and `fetchPageFrontmatter` returns null immediately — no URL is
ever requested, with or without a revision id, whatever the network
would have answered. -/
theorem empty_pageId_no_fetch (net : Net) (pathname : String) (revisionId : Option String)
    (h : pathname = "" ∨ pathname = "/") :
    fetchPageFrontmatter net pathname revisionId = (none, []) := by
  rcases h with rfl | rfl <;> rfl

/-- Witness for C10 at a concrete input: the bare slash with a revision
id, over a network that would throw on any request. -/
theorem empty_pageId_no_fetch_witness :
    (("/" : String) = "" ∨ ("/" : String) = "/") ∧
    fetchPageFrontmatter (fun _ => HttpBehavior.throw) "/" (some "r1") = (none, []) :=
  ⟨Or.inr rfl, empty_pageId_no_fetch (fun _ => HttpBehavior.throw) "/" (some "r1") (Or.inr rfl)⟩

/-- The observable panel state of client-entry.tsx: what the panel
displays (`none` = hidden / `display: none`) and the most recently
tracked address (`currentHref` inside `watchUrlChanges`). -/
structure PanelState where
  display : Option ParsedFrontmatter
  tracked : String

/-- The scheduler events of the client's single-threaded model: a
navigation (the wrapped `pushState`/`replaceState`/`popstate` handler
firing with a new location) and the completion of an earlier
`fetchPageFrontmatter` call that targeted `target` and resolved with
`res`. -/
inductive PanelEv where
  | nav (path : String)
  | complete (target : String) (res : Option ParsedFrontmatter)

/-- The tail of `updatePanel` after `await fetchPageFrontmatter(...)`
(client-entry.tsx lines 71-102): a null parse or one with zero keys
hides the panel, otherwise the parsed frontmatter is rendered. -/
def applyFetchResult (res : Option ParsedFrontmatter) : Option ParsedFrontmatter :=
  match res with
  | none => none
  | some pf => if pf.data.isEmpty then none else some pf

/-- One scheduler step of the client (client-entry.tsx).
`nav p`: `handleChange` ignores an unchanged address; otherwise it
updates `currentHref` and runs the `activate` callback — a non-pageId
path hides the panel synchronously (lines 61-64 via lines 192-199), a
pageId path starts a fetch for `p` (the returned `some p`) and leaves
the display unchanged until that fetch resolves.
`complete target res`: the continuation of `updatePanel` applies the
result — the source consults neither `target` nor the tracked
address at this point. -/
def stepEv (s : PanelState) (e : PanelEv) : PanelState × Option String :=
  match e with
  | .nav p =>
    if p = s.tracked then (s, none)
    else if PAGE_ID_PATTERN p then ({ display := s.display, tracked := p }, some p)
    else ({ display := none, tracked := p }, none)
  | .complete _ r => ({ display := applyFetchResult r, tracked := s.tracked }, none)

/-- Run a sequence of scheduler events. -/
def runEvents (s : PanelState) (evs : List PanelEv) : PanelState :=
  evs.foldl (fun st e => (stepEv st e).1) s

/-- C2 counterexample: a fetch is started for canonical address A, a
navigation then moves the tracked address to canonical B, B's own
pipeline completes and displays B's data — and when A's fetch finally
resolves, its result is applied anyway: the displayed state is A's data,
not B's, even though the tracked address is still B.  There is no
staleness check in `updatePanel`. -/
theorem staleness_counterexample :
    PAGE_ID_PATTERN "/aaaaaaaaaaaaaaaaaaaaaaaa" = true ∧
    PAGE_ID_PATTERN "/bbbbbbbbbbbbbbbbbbbbbbbb" = true ∧
    (runEvents ⟨none, "/start"⟩
      [.nav "/aaaaaaaaaaaaaaaaaaaaaaaa", .nav "/bbbbbbbbbbbbbbbbbbbbbbbb",
       .complete "/bbbbbbbbbbbbbbbbbbbbbbbb" (some ⟨"title: B", [("title", Value.str "B")]⟩),
       .complete "/aaaaaaaaaaaaaaaaaaaaaaaa" (some ⟨"title: A", [("title", Value.str "A")]⟩)]
      ).tracked = "/bbbbbbbbbbbbbbbbbbbbbbbb" ∧
    (runEvents ⟨none, "/start"⟩
      [.nav "/aaaaaaaaaaaaaaaaaaaaaaaa", .nav "/bbbbbbbbbbbbbbbbbbbbbbbb",
       .complete "/bbbbbbbbbbbbbbbbbbbbbbbb" (some ⟨"title: B", [("title", Value.str "B")]⟩),
       .complete "/aaaaaaaaaaaaaaaaaaaaaaaa" (some ⟨"title: A", [("title", Value.str "A")]⟩)]
      ).display = some ⟨"title: A", [("title", Value.str "A")]⟩ ∧
    (runEvents ⟨none, "/start"⟩
      [.nav "/aaaaaaaaaaaaaaaaaaaaaaaa", .nav "/bbbbbbbbbbbbbbbbbbbbbbbb",
       .complete "/bbbbbbbbbbbbbbbbbbbbbbbb" (some ⟨"title: B", [("title", Value.str "B")]⟩),
       .complete "/aaaaaaaaaaaaaaaaaaaaaaaa" (some ⟨"title: A", [("title", Value.str "A")]⟩)]
      ).display ≠ some ⟨"title: B", [("title", Value.str "B")]⟩ := by
  refine ⟨rfl, rfl, rfl, rfl, fun hc => ?_⟩
  rw [show (runEvents ⟨none, "/start"⟩
      [.nav "/aaaaaaaaaaaaaaaaaaaaaaaa", .nav "/bbbbbbbbbbbbbbbbbbbbbbbb",
       .complete "/bbbbbbbbbbbbbbbbbbbbbbbb" (some ⟨"title: B", [("title", Value.str "B")]⟩),
       .complete "/aaaaaaaaaaaaaaaaaaaaaaaa" (some ⟨"title: A", [("title", Value.str "A")]⟩)]
      ).display = some ⟨"title: A", [("title", Value.str "A")]⟩ from rfl] at hc
  injection hc with h1
  have h2 := congrArg ParsedFrontmatter.rawYaml h1
  exact (by decide : ("title: A" : String) ≠ "title: B") h2

/-- C2 (amended): there is no staleness rule in the code.  A completed
fetch's result is applied unconditionally: the display after a
completion event depends only on the completion's result — not on the
fetch's target address and not on the currently tracked address — and
the displayed state after any event sequence ending in a completion is
that completion's outcome, so the display reflects the most recently
*resolved* fetch, not the most recent navigation. -/
theorem completion_ignores_tracked :
    (∀ (s1 s2 : PanelState) (t1 t2 : String) (r : Option ParsedFrontmatter),
       (stepEv s1 (.complete t1 r)).1.display = (stepEv s2 (.complete t2 r)).1.display) ∧
    (∀ (s : PanelState) (t : String) (r : Option ParsedFrontmatter),
       (stepEv s (.complete t r)).1.display = applyFetchResult r) ∧
    (∀ (s : PanelState) (evs : List PanelEv) (t : String) (r : Option ParsedFrontmatter),
       (runEvents s (evs ++ [.complete t r])).display = applyFetchResult r) := by
  refine ⟨fun _ _ _ _ _ => rfl, fun _ _ _ => rfl, fun s evs t r => ?_⟩
  show (List.foldl (fun st e => (stepEv st e).1) s (evs ++ [.complete t r])).display = _
  rw [List.foldl_append]
  rfl
